import Mathlib

set_option maxRecDepth 4000
set_option maxHeartbeats 2000000

/-!
Verification of the file-tree materialization engine of `scaffold.js`
(saas-scaffold-starter): variable interpolation, slugification, the
scaffold orchestrator with its project tree definition, and the destroyer.

Strings are modelled as Lean `String`/`List Char`; the filesystem is
modelled explicitly (segment paths for the scaffold side, a node tree for
the destroy side).  ASCII case mapping is used for `toLowerCase`.
-/

namespace Scaffold

/-! ## Variable Interpolator: `render(tpl, vars)`
`tpl.replace(/\x7b\x7b(\w+)\x7d\x7d/g, (_, k) => (vars[k] ?? ''))`. -/

/-- JS `\w`: ASCII letters, digits, underscore. -/
def isWordChar (c : Char) : Bool := c.isAlphanum || c = '_'

/-- Does the list start with the two closing braces of a placeholder?
If so return what follows. -/
def closeTest : List Char → Option (List Char)
  | c1 :: c2 :: t => if c1 = '\x7d' ∧ c2 = '\x7d' then some t else none
  | _ => none

/-- Try to match the placeholder regex at the head of the list.  On
success return the identifier and the remainder after the closing braces.
The regex engine's greedy `\w+` cannot backtrack usefully here: a shorter
identifier would leave a word character where `\x7d` is required. -/
def matchPh (l : List Char) : Option (List Char × List Char) :=
  match l with
  | c1 :: c2 :: rest =>
    if c1 = '\x7b' ∧ c2 = '\x7b' then
      if (rest.takeWhile isWordChar).isEmpty then none
      else
        match closeTest (rest.dropWhile isWordChar) with
        | some t => some (rest.takeWhile isWordChar, t)
        | none => none
    else none
  | _ => none

theorem closeTest_some {x t : List Char} (h : closeTest x = some t) :
    x = '\x7d' :: '\x7d' :: t := by
  match x with
  | [] => simp [closeTest] at h
  | [c] => simp [closeTest] at h
  | c1 :: c2 :: u =>
    simp only [closeTest] at h
    split at h
    next hb =>
      simp only [Option.some.injEq] at h
      subst h
      obtain ⟨rfl, rfl⟩ := hb
      rfl
    next => simp at h

theorem matchPh_some_shape {l w t : List Char} (h : matchPh l = some (w, t)) :
    ∃ rest, l = '\x7b' :: '\x7b' :: rest ∧
      w = rest.takeWhile isWordChar ∧ w ≠ [] ∧
      rest.dropWhile isWordChar = '\x7d' :: '\x7d' :: t := by
  match l with
  | [] => simp [matchPh] at h
  | [c] => simp [matchPh] at h
  | c1 :: c2 :: rest =>
    simp only [matchPh] at h
    split at h
    next hb =>
      obtain ⟨rfl, rfl⟩ := hb
      split at h
      next => simp at h
      next hw =>
        split at h
        next t' hct =>
          simp only [Option.some.injEq, Prod.mk.injEq] at h
          obtain ⟨rfl, rfl⟩ := h
          exact ⟨rest, rfl, rfl, by simpa [List.isEmpty_iff] using hw, closeTest_some hct⟩
        next => simp at h
    next => simp at h

theorem matchPh_some_length {l w t : List Char}
    (h : matchPh l = some (w, t)) : t.length + 4 ≤ l.length := by
  obtain ⟨rest, rfl, hw, hne, hdrop⟩ := matchPh_some_shape h
  have hsplit : rest.takeWhile isWordChar ++ rest.dropWhile isWordChar = rest :=
    List.takeWhile_append_dropWhile isWordChar rest
  have h1 : 1 ≤ (rest.takeWhile isWordChar).length := by
    cases hcw : rest.takeWhile isWordChar with
    | nil => exact absurd (hw.trans hcw) hne
    | cons a l' => simp
  have h2 := congrArg List.length hsplit
  rw [hdrop] at h2
  simp only [List.length_append, List.length_cons] at h2 ⊢
  omega

/-- Look up an identifier: `vars[k] ?? ''`, then splice the value. -/
def substVar (vars : String → Option String) (w : List Char) : List Char :=
  ((vars (String.mk w)).getD "").data

/-- The interpolator: a single left-to-right pass; at each position either
the placeholder regex matches (replace, continue after it) or the
character is copied verbatim. -/
def renderL (vars : String → Option String) : List Char → List Char
  | [] => []
  | c :: rest =>
    match hm : matchPh (c :: rest) with
    | some (w, t) => substVar vars w ++ renderL vars t
    | none => c :: renderL vars rest
termination_by l => l.length
decreasing_by
  · have := matchPh_some_length hm
    simp only [List.length_cons] at *
    omega
  · simp

/-- `render(tpl, vars)` on strings. -/
def render (tpl : String) (vars : String → Option String) : String :=
  String.mk (renderL vars tpl.data)

/-- Does the placeholder regex match anywhere in the list? -/
def hasPh : List Char → Bool
  | [] => false
  | c :: rest => (matchPh (c :: rest)).isSome || hasPh rest

theorem renderL_nil (vars : String → Option String) : renderL vars [] = [] := by
  simp [renderL]

theorem renderL_cons_none {vars : String → Option String} {c : Char} {rest : List Char}
    (h : matchPh (c :: rest) = none) :
    renderL vars (c :: rest) = c :: renderL vars rest := by
  rw [renderL]
  split
  next w t hm => rw [h] at hm; cases hm
  next => rfl

theorem renderL_cons_some {vars : String → Option String} {c : Char} {rest w t : List Char}
    (h : matchPh (c :: rest) = some (w, t)) :
    renderL vars (c :: rest) = substVar vars w ++ renderL vars t := by
  rw [renderL]
  split
  next w' t' hm =>
    rw [h] at hm
    obtain ⟨rfl, rfl⟩ := Prod.mk.injEq .. ▸ Option.some.injEq _ _ ▸ hm
    rfl
  next hm => rw [h] at hm; cases hm

theorem closeTest_append_brace {B rest' : List Char} (h : closeTest B = none) :
    closeTest (B ++ '\x7b' :: rest') = none := by
  match B with
  | [] =>
    cases rest' <;> simp [closeTest]
  | [x] =>
    simp [closeTest]
  | x :: y :: B'' =>
    simp only [closeTest, List.cons_append] at h ⊢
    split at h
    next => simp at h
    next hb => simp [hb]

theorem matchPh_append_brace {l rest : List Char} (hl : l ≠ []) (h : matchPh l = none) :
    matchPh (l ++ '\x7b' :: '\x7b' :: rest) = none := by
  match l with
  | [] => exact absurd rfl hl
  | [c] =>
    by_cases hc : c = '\x7b'
    · subst hc
      simp [matchPh, show isWordChar '\x7b' = false by decide]
    · simp [matchPh, hc]
  | c1 :: c2 :: l'' =>
    by_cases hb : c1 = '\x7b' ∧ c2 = '\x7b'
    · obtain ⟨rfl, rfl⟩ := hb
      have htw : (l'' ++ '\x7b' :: '\x7b' :: rest).takeWhile isWordChar
          = l''.takeWhile isWordChar := by
        rw [List.takeWhile_append]
        split
        next hlen =>
          have h2 : l''.takeWhile isWordChar = l'' :=
            (List.takeWhile_prefix isWordChar).eq_of_length hlen
          rw [h2, List.takeWhile_cons_of_neg (by decide : ¬ isWordChar '\x7b' = true),
            List.append_nil]
        next => rfl
      have hdw : (l'' ++ '\x7b' :: '\x7b' :: rest).dropWhile isWordChar
          = l''.dropWhile isWordChar ++ '\x7b' :: '\x7b' :: rest := by
        rw [List.dropWhile_append]
        split
        next hemp =>
          rw [List.isEmpty_iff.mp hemp]
          rw [List.dropWhile_cons_of_neg (by decide : ¬ isWordChar '\x7b' = true)]
          rfl
        next => rfl
      simp only [List.cons_append, matchPh, htw, hdw] at h ⊢
      simp only [and_self, if_true, reduceIte] at h ⊢
      split
      next => rfl
      next hemp =>
        rw [if_neg hemp] at h
        have hcB : closeTest (l''.dropWhile isWordChar) = none := by
          rcases hct : closeTest (l''.dropWhile isWordChar) with _ | t
          · rfl
          · rw [hct] at h; simp at h
        rw [closeTest_append_brace hcB]
    · simp only [List.cons_append, matchPh]
      rw [if_neg hb]

theorem matchPh_placeholder {id post : List Char} (hne : id ≠ [])
    (hword : ∀ c ∈ id, isWordChar c) :
    matchPh ('\x7b' :: '\x7b' :: (id ++ '\x7d' :: '\x7d' :: post)) = some (id, post) := by
  have htw : (id ++ '\x7d' :: '\x7d' :: post).takeWhile isWordChar = id := by
    rw [List.takeWhile_append_of_pos hword]
    rw [List.takeWhile_cons_of_neg (by decide : ¬ isWordChar '\x7d' = true)]
    exact List.append_nil id
  have hdw : (id ++ '\x7d' :: '\x7d' :: post).dropWhile isWordChar
      = '\x7d' :: '\x7d' :: post := by
    rw [List.dropWhile_append_of_pos hword]
    exact List.dropWhile_cons_of_neg (by decide : ¬ isWordChar '\x7d' = true)
  simp only [matchPh, htw, hdw, closeTest]
  simp [List.isEmpty_iff, hne]

/-- **C3.** `interpolate` replaces each `\x7b\x7bidentifier\x7d\x7d`
occurrence (identifier of word characters) by the mapped value when the
identifier is present with a non-null value, and by the empty string when
it is absent or null/undefined (`vars[k] ?? ''`, modelled by
`Option.getD`); the text before the placeholder is reproduced
byte-identically, the substituted value is spliced verbatim (never
re-scanned, so no recursive re-expansion), scanning continues only on the
text after the placeholder, and the function is total (never throws). -/
theorem C3_render_interpolation (vars : String → Option String)
    (pre id post : List Char) (hpre : hasPh pre = false) (hne : id ≠ [])
    (hword : ∀ c ∈ id, isWordChar c) :
    renderL vars (pre ++ '\x7b' :: '\x7b' :: (id ++ '\x7d' :: '\x7d' :: post)) =
      pre ++ ((vars (String.mk id)).getD "").data ++ renderL vars post := by
  induction pre with
  | nil =>
    simp only [List.nil_append]
    rw [renderL_cons_some (matchPh_placeholder hne hword)]
    simp [substVar]
  | cons c pre' ih =>
    have h1 : (matchPh (c :: pre')).isSome = false ∧ hasPh pre' = false := by
      simpa [hasPh, Bool.or_eq_false_iff] using hpre
    have hm : matchPh (c :: pre') = none := by
      rcases hmm : matchPh (c :: pre') with _ | v
      · rfl
      · rw [hmm] at h1; simp at h1
    have happ : matchPh ((c :: pre') ++ '\x7b' :: '\x7b' :: (id ++ '\x7d' :: '\x7d' :: post))
        = none := matchPh_append_brace (by simp) hm
    rw [show ((c :: pre') ++ '\x7b' :: '\x7b' :: (id ++ '\x7d' :: '\x7d' :: post))
        = c :: (pre' ++ '\x7b' :: '\x7b' :: (id ++ '\x7d' :: '\x7d' :: post)) from rfl] at happ
    rw [List.cons_append, renderL_cons_none happ, ih h1.2]
    rfl

/-- Witness for C3 at concrete inputs: template `Hello \x7b\x7bname\x7d\x7d!`
with `name ↦ World` (present) — the hypotheses are discharged by `decide`. -/
theorem C3_render_interpolation_witness :
    renderL (fun k => if k == "name" then some "World" else none)
        ("Hello ".data ++ '\x7b' :: '\x7b' :: ("name".data ++ '\x7d' :: '\x7d' :: "!".data)) =
      "Hello ".data ++
        (((fun k => if k == "name" then some "World" else none) (String.mk "name".data)).getD
          "").data ++
        renderL (fun k => if k == "name" then some "World" else none) "!".data :=
  C3_render_interpolation (fun k => if k == "name" then some "World" else none)
    "Hello ".data "name".data "!".data (by decide) (by decide) (by decide)

/-! ## `slugify(s)`:
`String(s).toLowerCase().replace(/[^a-z0-9]+/g, '-').replace(/(^-|-$)/g, '')`.
The first `replace` turns every maximal run of characters outside
`[a-z0-9]` into a single hyphen; the second removes one leading and one
trailing hyphen (the `^-` and `-$` alternatives each match at most once).
ASCII case mapping models `toLowerCase`. -/

def isSlugChar (c : Char) : Bool := ('a' ≤ c && c ≤ 'z') || ('0' ≤ c && c ≤ '9')

/-- `replace(/[^a-z0-9]+/g, '-')`: collapse each maximal run of
non-slug characters to a single hyphen.  `inRun` records whether the
scanner is inside a non-slug run whose hyphen was already emitted. -/
def collapseAux (inRun : Bool) : List Char → List Char
  | [] => []
  | c :: t =>
    if isSlugChar c then c :: collapseAux false t
    else if inRun then collapseAux true t
    else '-' :: collapseAux true t

def collapseRuns (l : List Char) : List Char := collapseAux false l

/-- Remove a single leading hyphen (the `^-` alternative). -/
def trimLead (l : List Char) : List Char :=
  match l with
  | c :: t => if c = '-' then t else l
  | [] => []

/-- `replace(/(^-|-$)/g, '')`: one leading and one trailing hyphen. -/
def trimEdges (l : List Char) : List Char :=
  (trimLead ((trimLead l).reverse)).reverse

def slugify (s : String) : String :=
  String.mk (trimEdges (collapseRuns (s.data.map Char.toLower)))

/-- Spec-side trimming: ALL leading and trailing hyphens removed
(the claim's "leading and trailing hyphens trimmed"). -/
def trimAllEdges (l : List Char) : List Char :=
  ((l.dropWhile (· = '-')).reverse.dropWhile (· = '-')).reverse

/-- The slug as the claim words it: the name lowercased, every maximal
run of characters outside `[a-z0-9]` collapsed to a single hyphen, and
leading and trailing hyphens trimmed. -/
def slugifySpec (s : String) : String :=
  String.mk (trimAllEdges (collapseRuns (s.data.map Char.toLower)))

/-- No two adjacent hyphens. -/
def noDD (a b : Char) : Prop := ¬(a = '-' ∧ b = '-')

theorem collapseAux_true_head {l : List Char} {x : Char}
    (h : (collapseAux true l).head? = some x) : isSlugChar x = true := by
  induction l with
  | nil => simp [collapseAux] at h
  | cons c t ih =>
    rw [collapseAux] at h
    split at h
    next hs =>
      simp only [List.head?_cons, Option.some.injEq] at h
      exact h ▸ hs
    next => exact ih (by simpa using h)

theorem collapse_chain_aux : ∀ (b : Bool) (l : List Char),
    (collapseAux b l).Chain' noDD := by
  intro b l
  induction l generalizing b with
  | nil => simp [collapseAux]
  | cons c t ih =>
    rw [collapseAux]
    split
    next hs =>
      rw [List.chain'_cons']
      refine ⟨?_, ih false⟩
      intro x _ hcb
      rw [hcb.1] at hs
      exact absurd hs (by decide)
    next =>
      split
      next => exact ih true
      next =>
        rw [List.chain'_cons']
        refine ⟨?_, ih true⟩
        intro x hx hcb
        have := collapseAux_true_head (Option.mem_def.mp hx)
        rw [hcb.2] at this
        exact absurd this (by decide)

theorem collapse_chain (l : List Char) : (collapseRuns l).Chain' noDD :=
  collapse_chain_aux false l

theorem chain_trimLead {l : List Char} (h : l.Chain' noDD) :
    (trimLead l).Chain' noDD := by
  match l with
  | [] => simpa [trimLead] using h
  | c :: t =>
    rw [trimLead]
    split
    · exact (List.chain'_cons'.mp h).2
    · exact h

theorem trimLead_eq_dropWhile {l : List Char} (h : l.Chain' noDD) :
    trimLead l = l.dropWhile (· = '-') := by
  match l with
  | [] => rfl
  | c :: t =>
    rw [trimLead]
    split
    next hc =>
      subst hc
      rw [List.dropWhile_cons_of_pos (by simp)]
      match t with
      | [] => rfl
      | b :: t' =>
        have hb : ¬(('-' : Char) = '-' ∧ b = '-') :=
          (List.chain'_cons'.mp h).1 b (by simp)
        have hbne : ¬(b = '-') := fun hh => hb ⟨rfl, hh⟩
        rw [List.dropWhile_cons_of_neg (by simpa using hbne)]
    next hc =>
      rw [List.dropWhile_cons_of_neg (by simpa using hc)]

theorem chain_reverse_noDD {l : List Char} (h : l.Chain' noDD) :
    l.reverse.Chain' noDD := by
  rw [List.chain'_reverse]
  exact h.imp (fun a b hab hba => hab ⟨hba.2, hba.1⟩)

theorem trimEdges_eq_trimAll {l : List Char} (h : l.Chain' noDD) :
    trimEdges l = trimAllEdges l := by
  unfold trimEdges trimAllEdges
  rw [trimLead_eq_dropWhile (chain_reverse_noDD (chain_trimLead h)),
    trimLead_eq_dropWhile h]

/-- **C7.** For every project name string, the derived directory slug is
the name lowercased (ASCII case mapping) with every maximal run of
characters outside `[a-z0-9]` collapsed to a single hyphen and leading
and trailing hyphens trimmed; in particular
`slugify "My App!" = "my-app"`.  (`slugify` is the code's
`toLowerCase().replace(/[^a-z0-9]+/g,'-').replace(/(^-|-$)/g,'')`;
`slugifySpec` is the claim's wording — full trimming; the two agree
because the collapse step never leaves two adjacent hyphens.) -/
theorem C7_slugify_spec :
    (∀ s : String, slugify s = slugifySpec s) ∧ slugify "My App!" = "my-app" := by
  constructor
  · intro s
    unfold slugify slugifySpec
    rw [trimEdges_eq_trimAll (collapse_chain _)]
  · decide

/-! ## Residual placeholder tokens

A "residual placeholder token for a known variable" in a generated file is
a substring occurrence of `\x7b\x7bk\x7d\x7d` where `k` is one of the
configuration variable names of the `answers` record built by the `apply`
command. -/

/-- The configuration variable names (the fields of the `answers` record:
`\x7b name, dir, repo, stripe, auth, db, deploy, autoInstall \x7d`). -/
def knownVars : List String :=
  ["name", "dir", "repo", "stripe", "auth", "db", "deploy", "autoInstall"]

/-- The literal placeholder token for variable `k`. -/
def tokenOf (k : String) : List Char :=
  '\x7b' :: '\x7b' :: (k.data ++ ['\x7d', '\x7d'])

/-- Substring occurrence test. -/
def occursIn (pat : List Char) : List Char → Bool
  | [] => pat.isEmpty
  | c :: t => pat.isPrefixOf (c :: t) || occursIn pat t

/-- Characters that can be part of a placeholder token. -/
def isTokChar (c : Char) : Bool := c = '\x7b' || c = '\x7d' || isWordChar c

/-- Does `s` contain a residual placeholder token for a known variable? -/
def hasResidualKnownPh (s : String) : Bool :=
  knownVars.any (fun k => occursIn (tokenOf k) s.data)

theorem isPrefixOf_append_blocked {pat : List Char} (hall : pat.all isTokChar = true)
    {b : List Char} (hb : ∀ x, b.head? = some x → isTokChar x = false) :
    ∀ l : List Char, pat.isPrefixOf (l ++ b) = pat.isPrefixOf l := by
  induction pat with
  | nil => intro l; simp
  | cons p pt ih =>
    intro l
    have hp : isTokChar p = true := by
      simp only [List.all_cons, Bool.and_eq_true] at hall
      exact hall.1
    cases l with
    | nil =>
      simp only [List.nil_append]
      cases hbb : b with
      | nil => simp
      | cons x b' =>
        have hx : isTokChar x = false := hb x (by rw [hbb]; rfl)
        have hne : ¬ (p == x) = true := by
          intro hpx
          rw [eq_of_beq hpx] at hp
          rw [hp] at hx
          cases hx
        simp [List.isPrefixOf, Bool.and_eq_true, hne]
    | cons c l' =>
      have ih' := ih (by simp only [List.all_cons, Bool.and_eq_true] at hall; exact hall.2) l'
      simp [List.isPrefixOf, ih']

theorem occursIn_nil_of_ne {pat : List Char} (h : pat ≠ []) : occursIn pat [] = false := by
  simpa [occursIn, List.isEmpty_iff] using h

theorem occursIn_append_blocked {pat : List Char} (hne : pat ≠ [])
    (hall : pat.all isTokChar = true)
    {b : List Char} (hb : ∀ x, b.head? = some x → isTokChar x = false) :
    ∀ n : List Char, occursIn pat (n ++ b) = (occursIn pat n || occursIn pat b) := by
  intro n
  induction n with
  | nil => simp [occursIn_nil_of_ne hne]
  | cons c n' ih =>
    show occursIn pat (c :: (n' ++ b)) = _
    rw [occursIn, ih]
    rw [show (c :: (n' ++ b)) = (c :: n') ++ b from rfl,
      isPrefixOf_append_blocked hall hb (c :: n')]
    rw [occursIn]
    rw [Bool.or_assoc]

theorem occursIn_append3 {pat : List Char} (hne : pat ≠ [])
    (hall : pat.all isTokChar = true) {a n b : List Char}
    (ha : ∀ x, a.getLast? = some x → isTokChar x = false)
    (hb : ∀ x, b.head? = some x → isTokChar x = false) :
    occursIn pat (a ++ n ++ b) =
      (occursIn pat a || occursIn pat n || occursIn pat b) := by
  rcases List.eq_nil_or_concat a with rfl | ⟨y, d, rfl⟩
  · simp only [List.nil_append]
    rw [occursIn_append_blocked hne hall hb n, occursIn_nil_of_ne hne]
    simp
  · simp only [List.concat_eq_append] at ha ⊢
    have hd : isTokChar d = false := by
      apply ha
      simp [List.getLast?_concat]
    have hdcond : ∀ x, (d :: (n ++ b)).head? = some x → isTokChar x = false := by
      intro x hx
      simp only [List.head?_cons, Option.some.injEq] at hx
      exact hx ▸ hd
    have hdcond1 : ∀ x, ([d] : List Char).head? = some x → isTokChar x = false := by
      intro x hx
      simp only [List.head?_cons, Option.some.injEq] at hx
      exact hx ▸ hd
    obtain ⟨p, pt, rfl⟩ : ∃ p pt, pat = p :: pt := by
      cases pat with
      | nil => exact absurd rfl hne
      | cons p pt => exact ⟨p, pt, rfl⟩
    have hp : isTokChar p = true := by
      simp only [List.all_cons, Bool.and_eq_true] at hall
      exact hall.1
    have hpd : ¬ (p == d) = true := by
      intro hx
      rw [eq_of_beq hx] at hp
      rw [hp] at hd
      cases hd
    have h1 : (y ++ [d]) ++ n ++ b = y ++ (d :: (n ++ b)) := by simp
    have h2 : occursIn (p :: pt) [d] = false := by
      simp [occursIn, List.isPrefixOf, hpd, List.isEmpty_iff]
    have h3 : occursIn (p :: pt) (d :: (n ++ b)) = occursIn (p :: pt) (n ++ b) := by
      rw [occursIn]
      simp [List.isPrefixOf, hpd]
    rw [h1, occursIn_append_blocked hne hall hdcond y, h3,
      occursIn_append_blocked hne hall hb n,
      occursIn_append_blocked hne hall hdcond1 y, h2]
    cases occursIn (p :: pt) y <;> cases occursIn (p :: pt) n <;>
      cases occursIn (p :: pt) b <;> rfl

/-! ## `JSON.stringify(·, null, 2)` and `basePackageJson` -/

def hexDigit (n : Nat) : Char := "0123456789abcdef".data.getD n '0'

/-- JSON string escaping as in `JSON.stringify`: quote, backslash, the
control-character shorthands, and `\u00XX` for other control characters. -/
def jsonEscapeChar (c : Char) : List Char :=
  if c = '"' then ['\\', '"']
  else if c = '\\' then ['\\', '\\']
  else if c = '\x08' then ['\\', 'b']
  else if c = '\x09' then ['\\', 't']
  else if c = '\x0a' then ['\\', 'n']
  else if c = '\x0c' then ['\\', 'f']
  else if c = '\x0d' then ['\\', 'r']
  else if c < ' ' then ['\\', 'u', '0', '0', hexDigit (c.toNat / 16), hexDigit (c.toNat % 16)]
  else [c]

def jsonEscapeList : List Char → List Char
  | [] => []
  | c :: t => jsonEscapeChar c ++ jsonEscapeList t

def jsonEscape (s : String) : String := String.mk (jsonEscapeList s.data)

mutual
inductive JVal where
  | str : String → JVal
  | boolean : Bool → JVal
  | obj : JFields → JVal
inductive JFields where
  | nil : JFields
  | cons : String → JVal → JFields → JFields
end

def spaces (n : Nat) : String := String.mk (List.replicate n ' ')

mutual
/-- `JSON.stringify(v, null, 2)` at current indentation `ind`. -/
def JVal.stringify (ind : Nat) : JVal → String
  | .str s => "\"" ++ jsonEscape s ++ "\""
  | .boolean b => if b then "true" else "false"
  | .obj .nil => "\x7b\x7d"
  | .obj fs => "\x7b\n" ++ JFields.stringify (ind + 2) fs ++ "\n" ++ spaces ind ++ "\x7d"
def JFields.stringify (ind : Nat) : JFields → String
  | .nil => ""
  | .cons k v .nil => spaces ind ++ "\"" ++ jsonEscape k ++ "\": " ++ JVal.stringify ind v
  | .cons k v rest => spaces ind ++ "\"" ++ jsonEscape k ++ "\": " ++ JVal.stringify ind v
      ++ ",\n" ++ JFields.stringify ind rest
end

def JFields.lookup : JFields → String → Option JVal
  | .nil, _ => none
  | .cons k v rest, key => if k = key then some v else rest.lookup key

/-- The `basePackageJson(name, opts)` object (the `opts` parameter is
never read by the source function). -/
def basePackageJson (name : String) : JVal :=
  .obj (.cons "name" (.str name)
    (.cons "version" (.str "0.1.0")
    (.cons "private" (.boolean true)
    (.cons "scripts" (.obj
      (.cons "dev" (.str "next dev")
      (.cons "build" (.str "next build")
      (.cons "start" (.str "next start")
      (.cons "lint" (.str "eslint . --ext .js,.jsx,.ts,.tsx || true") .nil)))))
    (.cons "dependencies" (.obj
      (.cons "next" (.str "latest")
      (.cons "react" (.str "latest")
      (.cons "react-dom" (.str "latest")
      (.cons "@chakra-ui/react" (.str "^2.7.0")
      (.cons "@emotion/react" (.str "^11.10.5")
      (.cons "@emotion/styled" (.str "^11.10.5")
      (.cons "framer-motion" (.str "^10.12.16")
      (.cons "@clerk/nextjs" (.str "^5.0.0")
      (.cons "@supabase/supabase-js" (.str "^2.34.0")
      (.cons "stripe" (.str "^11.0.0") .nil)))))))))))
    (.cons "devDependencies" (.obj
      (.cons "eslint" (.str "^8.47.0") .nil)) .nil))))))

/-- The `package.json` file content:
`JSON.stringify(basePackageJson(opts.name, opts), null, 2)`. -/
def pkgJsonContent (name : String) : String :=
  JVal.stringify 0 (basePackageJson name)

theorem isTokChar_not_lt_space {c : Char} (h : isTokChar c = true) : ¬ c < ' ' := by
  simp only [isTokChar, isWordChar, Char.isAlphanum, Char.isAlpha, Char.isDigit,
    Char.isUpper, Char.isLower, Bool.or_eq_true, Bool.and_eq_true,
    decide_eq_true_eq] at h
  intro hlt
  have hlt' : c.val.toNat < 32 := hlt
  rcases h with (h | h) | ((h | h) | h) | h
  · subst h; exact absurd hlt (by decide)
  · subst h; exact absurd hlt (by decide)
  · have h65 : 65 ≤ c.val.toNat := h.1
    omega
  · have h97 : 97 ≤ c.val.toNat := h.1
    omega
  · have h48 : 48 ≤ c.val.toNat := h.1
    omega
  · subst h; exact absurd hlt (by decide)

theorem jsonEscapeChar_of_tok {c : Char} (h : isTokChar c = true) :
    jsonEscapeChar c = [c] := by
  have h1 : c ≠ '"' := by rintro rfl; exact absurd h (by decide)
  have h2 : c ≠ '\\' := by rintro rfl; exact absurd h (by decide)
  have h3 : c ≠ '\x08' := by rintro rfl; exact absurd h (by decide)
  have h4 : c ≠ '\x09' := by rintro rfl; exact absurd h (by decide)
  have h5 : c ≠ '\x0a' := by rintro rfl; exact absurd h (by decide)
  have h6 : c ≠ '\x0c' := by rintro rfl; exact absurd h (by decide)
  have h7 : c ≠ '\x0d' := by rintro rfl; exact absurd h (by decide)
  have h8 : ¬ c < ' ' := isTokChar_not_lt_space h
  simp [jsonEscapeChar, h1, h2, h3, h4, h5, h6, h7, h8]

theorem hexDigit_ne_lbrace (n : Nat) : hexDigit n ≠ '\x7b' := by
  unfold hexDigit
  by_cases hn : n < 16
  · interval_cases n <;> decide
  · rw [List.getD_eq_default]
    · decide
    · simp only [not_lt] at hn
      calc ("0123456789abcdef".data).length = 16 := by decide
        _ ≤ n := hn

theorem jsonEscapeChar_shape (c : Char) :
    jsonEscapeChar c = [c] ∨
      ((∃ es, jsonEscapeChar c = '\\' :: es) ∧ '\x7b' ∉ jsonEscapeChar c) := by
  unfold jsonEscapeChar
  split
  · exact Or.inr ⟨⟨_, rfl⟩, by decide⟩
  split
  · exact Or.inr ⟨⟨_, rfl⟩, by decide⟩
  split
  · exact Or.inr ⟨⟨_, rfl⟩, by decide⟩
  split
  · exact Or.inr ⟨⟨_, rfl⟩, by decide⟩
  split
  · exact Or.inr ⟨⟨_, rfl⟩, by decide⟩
  split
  · exact Or.inr ⟨⟨_, rfl⟩, by decide⟩
  split
  · exact Or.inr ⟨⟨_, rfl⟩, by decide⟩
  split
  · refine Or.inr ⟨⟨_, rfl⟩, ?_⟩
    intro hmem
    simp only [List.mem_cons, List.not_mem_nil, or_false] at hmem
    rcases hmem with h | h | h | h | h | h
    · cases h
    · cases h
    · cases h
    · cases h
    · exact hexDigit_ne_lbrace _ h.symm
    · exact hexDigit_ne_lbrace _ h.symm
  · exact Or.inl rfl

theorem isPrefixOf_escape {pat : List Char} (hall : pat.all isTokChar = true) :
    ∀ l : List Char, pat.isPrefixOf (jsonEscapeList l) = pat.isPrefixOf l := by
  induction pat with
  | nil => intro l; simp
  | cons p pt ih =>
    intro l
    have hp : isTokChar p = true := by
      simp only [List.all_cons, Bool.and_eq_true] at hall
      exact hall.1
    have hallt : pt.all isTokChar = true := by
      simp only [List.all_cons, Bool.and_eq_true] at hall
      exact hall.2
    cases l with
    | nil => simp [jsonEscapeList]
    | cons c t =>
      rcases jsonEscapeChar_shape c with hc | ⟨⟨es, hes⟩, hnb⟩
      · rw [jsonEscapeList, hc]
        show (p :: pt).isPrefixOf (c :: jsonEscapeList t) = _
        simp only [List.isPrefixOf]
        rw [ih hallt t]
      · rw [jsonEscapeList, hes]
        have hpb : (p == '\\') = false := by
          refine beq_eq_false_iff_ne.mpr ?_
          rintro rfl
          exact absurd hp (by decide)
        have hpc : (p == c) = false := by
          refine beq_eq_false_iff_ne.mpr ?_
          rintro rfl
          rw [jsonEscapeChar_of_tok hp] at hes
          have : p = '\\' := by
            have := List.head_eq_of_cons_eq hes
            exact this
          rw [this] at hp
          exact absurd hp (by decide)
        show (p :: pt).isPrefixOf ('\\' :: (es ++ jsonEscapeList t)) = _
        simp [List.isPrefixOf, hpb, hpc]

theorem occursIn_skip {pat es : List Char} (hhead : pat.head? = some '\x7b')
    (hes : '\x7b' ∉ es) (m : List Char) :
    occursIn pat (es ++ m) = occursIn pat m := by
  induction es with
  | nil => rfl
  | cons e es' ih =>
    have he : e ≠ '\x7b' := by
      intro h
      exact hes (h ▸ List.mem_cons_self e es')
    have hes' : '\x7b' ∉ es' := fun hx => hes (List.mem_cons_of_mem _ hx)
    obtain ⟨p, pt, rfl⟩ : ∃ p pt, pat = p :: pt := by
      cases pat with
      | nil => cases hhead
      | cons p pt => exact ⟨p, pt, rfl⟩
    have hp : p = '\x7b' := by simpa using hhead
    subst hp
    show occursIn _ (e :: (es' ++ m)) = _
    rw [occursIn, ih hes']
    have hne : (('\x7b' : Char) == e) = false :=
      beq_eq_false_iff_ne.mpr (fun hh => he hh.symm)
    simp [List.isPrefixOf, hne]

theorem occursIn_escape_false {pat : List Char} (hall : pat.all isTokChar = true)
    (hhead : pat.head? = some '\x7b') :
    ∀ l : List Char, occursIn pat l = false → occursIn pat (jsonEscapeList l) = false := by
  intro l
  induction l with
  | nil => intro h; simpa [jsonEscapeList] using h
  | cons c t ih =>
    intro h
    rw [occursIn, Bool.or_eq_false_iff] at h
    rcases jsonEscapeChar_shape c with hc | ⟨⟨es, hes⟩, hnb⟩
    · rw [jsonEscapeList, hc]
      show occursIn pat (c :: jsonEscapeList t) = false
      rw [occursIn, Bool.or_eq_false_iff]
      refine ⟨?_, ih h.2⟩
      obtain ⟨p, pt, rfl⟩ : ∃ p pt, pat = p :: pt := by
        cases pat with
        | nil => cases hhead
        | cons p pt => exact ⟨p, pt, rfl⟩
      have hallt : pt.all isTokChar = true := by
        simp only [List.all_cons, Bool.and_eq_true] at hall
        exact hall.2
      have h1 : (p :: pt).isPrefixOf (c :: jsonEscapeList t)
          = (p :: pt).isPrefixOf (c :: t) := by
        simp only [List.isPrefixOf]
        rw [isPrefixOf_escape hallt t]
      rw [h1]
      exact h.1
    · rw [jsonEscapeList, hes]
      have hnb' : '\x7b' ∉ ('\\' :: es) := hes ▸ hnb
      rw [show (('\\' :: es) ++ jsonEscapeList t) = ('\\' :: es) ++ jsonEscapeList t from rfl,
        occursIn_skip hhead hnb' _]
      exact ih h.2

theorem knownTok_facts : ∀ k ∈ knownVars,
    tokenOf k ≠ [] ∧ (tokenOf k).all isTokChar = true ∧
      (tokenOf k).head? = some '\x7b' := by decide

/-- Escaping a string free of residual known placeholders keeps it free. -/
theorem hasResidual_escape {n : String} (hn : hasResidualKnownPh n = false) :
    hasResidualKnownPh (jsonEscape n) = false := by
  unfold hasResidualKnownPh at *
  simp only [List.any_eq_false, Bool.not_eq_true] at *
  intro k hk
  obtain ⟨-, hall, hhead⟩ := knownTok_facts k hk
  exact occursIn_escape_false hall hhead n.data (hn k hk)

/-- Decidable check: the last character of `a` (if any) cannot be part of
a placeholder token. -/
def lastNonTok (a : String) : Bool :=
  match a.data.getLast? with
  | some x => !isTokChar x
  | none => true

/-- Decidable check: the first character of `b` (if any) cannot be part of
a placeholder token. -/
def headNonTok (b : String) : Bool :=
  match b.data.head? with
  | some x => !isTokChar x
  | none => true

theorem of_lastNonTok {a : String} (h : lastNonTok a = true) :
    ∀ x, a.data.getLast? = some x → isTokChar x = false := by
  intro x hx
  unfold lastNonTok at h
  rw [hx] at h
  simpa using h

theorem of_headNonTok {b : String} (h : headNonTok b = true) :
    ∀ x, b.data.head? = some x → isTokChar x = false := by
  intro x hx
  unfold headNonTok at h
  rw [hx] at h
  simpa using h

/-- Splicing `n` between chunks `a`, `b` whose boundary characters cannot
take part in a placeholder token: the spliced string has a residual known
placeholder only where one of the three parts does. -/
theorem hasResidualKnownPh_splice3 (a b : String)
    (hlast : lastNonTok a = true) (hhead : headNonTok b = true)
    (ha : hasResidualKnownPh a = false) (hb : hasResidualKnownPh b = false)
    (n : String) (hn : hasResidualKnownPh n = false) :
    hasResidualKnownPh (a ++ n ++ b) = false := by
  unfold hasResidualKnownPh at *
  simp only [List.any_eq_false, Bool.not_eq_true] at *
  intro k hk
  obtain ⟨hne, hall, -⟩ := knownTok_facts k hk
  have hdata : (a ++ n ++ b).data = a.data ++ n.data ++ b.data := rfl
  rw [hdata, occursIn_append3 hne hall (of_lastNonTok hlast) (of_headNonTok hhead)]
  rw [ha k hk, hn k hk, hb k hk]
  rfl

/-- Append where the right part starts with a non-token character. -/
theorem hasResidualKnownPh_append_head (x y : String)
    (hy : headNonTok y = true)
    (hx : hasResidualKnownPh x = false) (hyr : hasResidualKnownPh y = false) :
    hasResidualKnownPh (x ++ y) = false := by
  unfold hasResidualKnownPh at *
  simp only [List.any_eq_false, Bool.not_eq_true] at *
  intro k hk
  obtain ⟨hne, hall, -⟩ := knownTok_facts k hk
  have hdata : (x ++ y).data = x.data ++ y.data := rfl
  rw [hdata, occursIn_append_blocked hne hall (of_headNonTok hy) x.data]
  rw [hx k hk, hyr k hk]
  rfl

/-- Append where the left part ends with a non-token character. -/
theorem hasResidualKnownPh_append_last (x y : String)
    (hx' : lastNonTok x = true)
    (hx : hasResidualKnownPh x = false) (hyr : hasResidualKnownPh y = false) :
    hasResidualKnownPh (x ++ y) = false := by
  unfold hasResidualKnownPh at *
  simp only [List.any_eq_false, Bool.not_eq_true] at *
  intro k hk
  obtain ⟨hne, hall, -⟩ := knownTok_facts k hk
  have hdata : (x ++ y).data = x.data ++ y.data ++ ([] : List Char) := by simp
  have hnilhead : ∀ c : Char, ([] : List Char).head? = some c → isTokChar c = false := by
    intro c hc
    cases hc
  rw [hdata, occursIn_append3 hne hall (of_lastNonTok hx') hnilhead]
  rw [hx k hk, hyr k hk, occursIn_nil_of_ne hne]
  rfl

/-! ## Filesystem model for the scaffold side

Paths are segment lists.  `write(filePath, content)` is
`mkdirSync(dirname(filePath), \x7brecursive: true\x7d)` followed by
`writeFileSync(filePath, content)`; `mkdirSync(p, \x7brecursive: true\x7d)`
creates the path and all its missing ancestors. -/

abbrev Path := List String

structure Fs where
  dirs : List Path
  files : List (Path × String)

def lookupA : List (Path × String) → Path → Option String
  | [], _ => none
  | (q, c) :: t, p => if q = p then some c else lookupA t p

/-- `fs.existsSync(p)`: a directory or a file at `p`. -/
def Fs.existsPath (fs : Fs) (p : Path) : Bool :=
  fs.dirs.contains p || (lookupA fs.files p).isSome

def Fs.lookupFile (fs : Fs) (p : Path) : Option String := lookupA fs.files p

/-- The nonempty prefixes of a path: the directories that
`mkdirSync(p, \x7brecursive: true\x7d)` ensures exist. -/
def prefixesOf (p : Path) : List Path :=
  (List.range p.length).map (fun i => p.take (i + 1))

def Fs.mkdirRec (fs : Fs) (p : Path) : Fs :=
  { fs with dirs := prefixesOf p ++ fs.dirs }

/-- `write(filePath, content)`: ensure ancestors, then create/truncate. -/
def Fs.writeFile (fs : Fs) (p : Path) (content : String) : Fs :=
  { dirs := prefixesOf p.dropLast ++ fs.dirs
    files := (p, content) :: fs.files }

/-- One `createScaffold` action: an explicit `mkdirSync` or a `write`,
with a path relative to the target directory. -/
inductive Act where
  | mkdirRel (rel : String)
  | writeRel (rel : String) (content : String)

/-- Split on `'/'` (the behaviour of `splitOn "/"` on the script's
relative paths, written structurally so it evaluates). -/
def splitSlashAux (cur : List Char) : List Char → List String
  | [] => [String.mk cur.reverse]
  | c :: t =>
    if c = '/' then String.mk cur.reverse :: splitSlashAux [] t
    else splitSlashAux (c :: cur) t

/-- Segments of a relative path. -/
def relSegs (rel : String) : Path := splitSlashAux [] rel.data

theorem splitSlashAux_ne_nil (cur : List Char) :
    ∀ l : List Char, splitSlashAux cur l ≠ [] := by
  intro l
  induction l generalizing cur with
  | nil => simp [splitSlashAux]
  | cons c t ih =>
    rw [splitSlashAux]
    split
    · simp
    · exact ih (c :: cur)

theorem relSegs_ne_nil (rel : String) : relSegs rel ≠ [] :=
  splitSlashAux_ne_nil [] rel.data

def applyAct (d : Path) (fs : Fs) : Act → Fs
  | .mkdirRel rel => fs.mkdirRec (d ++ relSegs rel)
  | .writeRel rel content => fs.writeFile (d ++ relSegs rel) content
/-! Template payload contents, transcribed from `createScaffold` in scaffold.js.
    Contents that splice in the project name are functions of `name`. -/

def content_README_md (name : String) : String :=
  "# " ++ name ++ "\n\nScaffolded with CLI. See .env examples and README for run instructions.\n"

def content_netlify_toml : String :=
  "[build]\n  command = \"npm run build\"\n  functions = \"netlify/functions\"\n  publish = \".next\"\n[dev]\n  command = \"npm run dev\"\n[plugins]\n  [[plugins]]\n    package = \"@netlify/plugin-nextjs\"\n"

def content__gitignore : String :=
  "node_modules\n.next\n.env*\n.netlify\n"

def content__env_staging (name : String) : String :=
  "NEXT_PUBLIC_SITE_URL=https://staging.example.com\nNEXT_PUBLIC_SITE_NAME=" ++ name ++ "\nCLERK_PUBLISHABLE_KEY=\nCLERK_SECRET_KEY=\nSUPABASE_URL=\nSUPABASE_ANON_KEY=\nSUPABASE_SERVICE_ROLE_KEY=\nSTRIPE_SECRET_KEY=\nSTRIPE_WEBHOOK_SECRET=\nSUCCESS_URL=https://staging.example.com/dashboard\nCANCEL_URL=https://staging.example.com/\n"

def content__env_production (name : String) : String :=
  "NEXT_PUBLIC_SITE_URL=https://yourdomain.com\nNEXT_PUBLIC_SITE_NAME=" ++ name ++ "\nCLERK_PUBLISHABLE_KEY=\nCLERK_SECRET_KEY=\nSUPABASE_URL=\nSUPABASE_ANON_KEY=\nSUPABASE_SERVICE_ROLE_KEY=\nSTRIPE_SECRET_KEY=\nSTRIPE_WEBHOOK_SECRET=\nSUCCESS_URL=https://yourdomain.com/dashboard\nCANCEL_URL=https://yourdomain.com/\n"

def content__env_local (name : String) : String :=
  "# .env.local\nNEXT_PUBLIC_SITE_URL=http://localhost:3000\nNEXT_PUBLIC_SITE_NAME=" ++ name ++ "\n\n# Clerk\nNEXT_PUBLIC_CLERK_PUBLISHABLE_KEY=pk_test_xxxxxxxxxxxxxxxxxxxxx\nCLERK_SECRET_KEY=sk_test_xxxxxxxxxxxxxxxxxxxxx\n\n# Supabase\nSUPABASE_URL=https://your-project.supabase.co\nSUPABASE_ANON_KEY=eyJhbGciOi...\nSUPABASE_SERVICE_ROLE_KEY=eyJhbGciOi...\n\n# Stripe\nSTRIPE_SECRET_KEY=sk_test_xxxxxxxxxxxxxxxxxxxxx\nSTRIPE_WEBHOOK_SECRET=whsec_xxxxxxxxxxxxxxxxxxxxx\nSUCCESS_URL=http://localhost:3000/dashboard\nCANCEL_URL=http://localhost:3000/\n\nNEXT_PUBLIC_ENV=development\n\n# Optional Ad Pixels\nNEXT_PUBLIC_META_PIXEL_ID=\nNEXT_PUBLIC_LINKEDIN_ID=\nNEXT_PUBLIC_TIKTOK_ID=\n\n"

def content_supabase_init_sql : String :=
  "-- supabase/init.sql\n-- Creates events + signups tables for analytics and lead capture.\n\ncreate table if not exists public.events (\n  id uuid primary key default gen_random_uuid(),\n  type text not null,\n  data jsonb,\n  created_at timestamptz not null default now()\n);\n\ncreate index if not exists idx_events_type on public.events (type);\ncreate index if not exists idx_events_created_at on public.events (created_at desc);\n\ncreate table if not exists public.signups (\n  id uuid primary key default gen_random_uuid(),\n  email text not null,\n  source text,\n  metadata jsonb,\n  created_at timestamptz not null default now()\n);\n\ncreate index if not exists idx_signups_email on public.signups (email);\ncreate index if not exists idx_signups_created_at on public.signups (created_at desc);\n\nalter table public.events enable row level security;\nalter table public.signups enable row level security;\n\ncreate policy \"allow_service_insert_events\" on public.events\n  for insert\n  with check (auth.role() = \x27service_role\x27);\n\ncreate policy \"allow_service_insert_signups\" on public.signups\n  for insert\n  with check (auth.role() = \x27service_role\x27);\n"

def content_lib_supabaseClient_ts : String :=
  "// lib/supabaseClient.ts\nimport \x7b createClient \x7d from \x27@supabase/supabase-js\x27\n\n/**\n * Client-side: use anonymous key\n * Server-side: prefer service role key for privileged ops\n */\nconst SUPABASE_URL = process.env.NEXT_PUBLIC_SUPABASE_URL || process.env.SUPABASE_URL\nconst SUPABASE_KEY =\n  typeof window === \x27undefined\x27\n    ? process.env.SUPABASE_SERVICE_ROLE_KEY\n    : process.env.NEXT_PUBLIC_SUPABASE_ANON_KEY || process.env.SUPABASE_ANON_KEY\n\nexport const supabase = createClient(SUPABASE_URL!, SUPABASE_KEY!)\n"

def content_lib_safeClerk_tsx : String :=
  "import React from \"react\";\n\nconst hasClerk =\n  typeof process !== \"undefined\" &&\n  process.env.NEXT_PUBLIC_CLERK_PUBLISHABLE_KEY &&\n  process.env.NEXT_PUBLIC_CLERK_PUBLISHABLE_KEY.length > 20;\n\nlet RealClerk: any = null;\nif (hasClerk) \x7b\n  try \x7b\n    RealClerk = require(\"@clerk/nextjs\");\n  \x7d catch (err) \x7b\n    console.warn(\"Clerk failed to load:\", err);\n  \x7d\n\x7d\n\nfunction NoopProvider(\x7b children \x7d) \x7b\n  return <>\x7bchildren\x7d</>;\n\x7d\n\nconst noop = () => (\x7b\n  isLoaded: false,\n  isSignedIn: false,\n  user: null,\n\x7d);\n\nexport const SafeClerkProvider = (\x7b children \x7d) => \x7b\n  if (hasClerk && RealClerk?.ClerkProvider) \x7b\n    return (\n      <RealClerk.ClerkProvider publishableKey=\x7bprocess.env.NEXT_PUBLIC_CLERK_PUBLISHABLE_KEY\x7d>\n        \x7bchildren\x7d\n      </RealClerk.ClerkProvider>\n    );\n  \x7d\n  return <NoopProvider>\x7bchildren\x7d</NoopProvider>;\n\x7d;\n\nexport const useUser =\n  hasClerk && RealClerk?.useUser ? RealClerk.useUser : noop;\nexport const SignedIn =\n  hasClerk && RealClerk?.SignedIn ? RealClerk.SignedIn : (\x7b children \x7d) => null;\nexport const SignedOut =\n  hasClerk && RealClerk?.SignedOut ? RealClerk.SignedOut : (\x7b children \x7d) => children;\nexport const SignInButton =\n  hasClerk && RealClerk?.SignInButton\n    ? RealClerk.SignInButton\n    : (\x7b children \x7d) => <>\x7bchildren\x7d</>;\n"

def content_pages_api_signups_add_ts : String :=
  "// pages/api/signups/add.ts\nimport \x7b supabase \x7d from \x27../../../lib/supabaseClient\x27\n\nexport default async function handler(req, res) \x7b\n  if (req.method !== \x27POST\x27) return res.status(405).end()\n\n  try \x7b\n    const \x7b email, source, utm \x7d = req.body || \x7b\x7d\n    if (!email) return res.status(400).json(\x7b error: \x27Missing email\x27 \x7d)\n\n    const metadata = \x7b\n      source: source || \x27landing\x27,\n      utm: utm || null,\n      ua: req.headers[\x27user-agent\x27],\n      ts: new Date().toISOString()\n    \x7d\n\n    const \x7b error \x7d = await supabase.from(\x27signups\x27).insert([\x7b email, metadata \x7d])\n    if (error) return res.status(500).json(\x7b error: error.message \x7d)\n\n    // Optional: Trigger Meta \"Lead\" pixel event if available\n    if (process.env.NEXT_PUBLIC_META_PIXEL_ID) \x7b\n      try \x7b\n        // Return JS snippet that executes fbq(\x27track\x27, \x27Lead\x27) on client\n        return res.status(200).json(\x7b\n          ok: true,\n          metaEvent: true,\n          message: \x27Signup tracked + Meta Lead event fired\x27\n        \x7d)\n      \x7d catch (e) \x7b\n        console.warn(\x27Meta pixel error\x27, e.message)\n      \x7d\n    \x7d\n\n    res.status(200).json(\x7b ok: true \x7d)\n  \x7d catch (err) \x7b\n    console.error(err)\n    res.status(500).json(\x7b error: \x27Server error\x27 \x7d)\n  \x7d\n\x7d\n\n"

def content_next_config_js : String :=
  "/** @type \x7bimport(\x27next\x27).NextConfig\x7d */\nmodule.exports = \x7b reactStrictMode: true \x7d;\n"

def content_pages_app_tsx : String :=
  "// pages/_app.tsx\nimport \x27../styles/globals.css\x27;\nimport \x7b ChakraProvider \x7d from \x27@chakra-ui/react\x27;\nimport \x7b useEffect \x7d from \x27react\x27;\nimport \x7b SafeClerkProvider \x7d from \x27../lib/safeClerk\x27;\nimport \x7b injectAnalytics \x7d from \x27../lib/analytics\x27;\nimport \x7b injectAdPixels \x7d from \x27../lib/ads\x27;\n\nexport default function App(\x7b Component, pageProps \x7d) \x7b\n  useEffect(() => \x7b\n    injectAnalytics();\n    injectAdPixels();\n  \x7d, []);\n\n  // Capture UTM params globally\n  useEffect(() => \x7b\n    const url = new URL(window.location.href);\n    const utmKeys = [\x27utm_source\x27,\x27utm_medium\x27,\x27utm_campaign\x27,\x27utm_term\x27,\x27utm_content\x27];\n    const params = \x7b\x7d;\n    utmKeys.forEach(k => \x7b\n      const v = url.searchParams.get(k);\n      if (v) \x7b\n        localStorage.setItem(k, v);\n        params[k] = v;\n      \x7d\n    \x7d);\n    window.__UTM__ = params;\n  \x7d, []);\n\n  return (\n    <SafeClerkProvider>\n      <ChakraProvider>\n        <Component \x7b...pageProps\x7d />\n      </ChakraProvider>\n    </SafeClerkProvider>\n  );\n\x7d\n"

def content_lib_analytics_ts : String :=
  "// lib/analytics.ts\nexport const injectAnalytics = () => \x7b\n  if (typeof window === \x27undefined\x27) return;\n  // Google Analytics\n  const GA_MEASUREMENT_ID = process.env.NEXT_PUBLIC_GA_ID;\n  if (GA_MEASUREMENT_ID && !window[\x27ga-init\x27]) \x7b\n    const s = document.createElement(\x27script\x27);\n    s.src = \x60https://www.googletagmanager.com/gtag/js?id=$\x7bGA_MEASUREMENT_ID\x7d\x60;\n    s.async = true;\n    document.head.appendChild(s);\n    window.dataLayer = window.dataLayer || [];\n    function gtag()\x7bwindow.dataLayer.push(arguments);\x7d\n    gtag(\x27js\x27, new Date());\n    gtag(\x27config\x27, GA_MEASUREMENT_ID);\n    window[\x27ga-init\x27] = true;\n  \x7d\n\n  // Microsoft Clarity\n  const CLARITY_ID = process.env.NEXT_PUBLIC_CLARITY_ID;\n  if (CLARITY_ID && !window[\x27clarity-init\x27]) \x7b\n    (function(c,l,a,r,i,t,y)\x7b\n      c[a]=c[a]||function()\x7b(c[a].q=c[a].q||[]).push(arguments)\x7d;\n      t=l.createElement(r);t.async=1;t.src=\"https://www.clarity.ms/tag/\"+i;\n      y=l.getElementsByTagName(r)[0];y.parentNode.insertBefore(t,y);\n      c[a](\x27consent\x27);\n    \x7d)(window, document, \"clarity\", \"script\", CLARITY_ID);\n    window[\x27clarity-init\x27] = true;\n  \x7d\n\x7d;\n"

def content_lib_ads_ts : String :=
  "// lib/ads.ts\nexport const injectAdPixels = () => \x7b\n  if (typeof window === \x27undefined\x27) return;\n\n  // Meta Pixel\n  const META_PIXEL_ID = process.env.NEXT_PUBLIC_META_PIXEL_ID;\n  if (META_PIXEL_ID && !window[\x27fbq-init\x27]) \x7b\n    !(function(f,b,e,v,n,t,s)\n      \x7bif(f.fbq)return;n=f.fbq=function()\x7bn.callMethod?\n      n.callMethod.apply(n,arguments):n.queue.push(arguments)\x7d;\n      if(!f._fbq)f._fbq=n;n.push=n;n.loaded=!0;n.version=\x272.0\x27;\n      n.queue=[];t=b.createElement(e);t.async=!0;\n      t.src=v;s=b.getElementsByTagName(e)[0];\n      s.parentNode.insertBefore(t,s)\x7d)(window, document,\x27script\x27,\n      \x27https://connect.facebook.net/en_US/fbevents.js\x27);\n    window.fbq(\x27init\x27, META_PIXEL_ID);\n    window.fbq(\x27track\x27, \x27PageView\x27);\n    window[\x27fbq-init\x27] = true;\n    console.log(\x27✅ Meta Pixel injected\x27);\n  \x7d\n\n  // LinkedIn Insight Tag\n  const LINKEDIN_ID = process.env.NEXT_PUBLIC_LINKEDIN_ID;\n  if (LINKEDIN_ID && !window[\x27li-init\x27]) \x7b\n    const s = document.createElement(\x27script\x27);\n    s.type = \x27text/javascript\x27;\n    s.innerHTML = \x60_linkedin_partner_id = \"$\x7bLINKEDIN_ID\x7d\";\n    window._linkedin_data_partner_ids = window._linkedin_data_partner_ids || [];\n    window._linkedin_data_partner_ids.push(_linkedin_partner_id);\x60;\n    document.head.appendChild(s);"
    ++ "\n    const t = document.createElement(\x27script\x27);\n    t.type = \x27text/javascript\x27;\n    t.src = \x27https://snap.licdn.com/li.lms-analytics/insight.min.js\x27;\n    t.async = true;\n    document.head.appendChild(t);\n    window[\x27li-init\x27] = true;\n    console.log(\x27✅ LinkedIn pixel injected\x27);\n  \x7d\n\n  // TikTok Pixel (optional)\n  const TIKTOK_ID = process.env.NEXT_PUBLIC_TIKTOK_ID;\n  if (TIKTOK_ID && !window[\x27ttq-init\x27]) \x7b\n    !(function (w, d, t) \x7b\n      w.TiktokAnalyticsObject = t;\n      var ttq = (w[t] = w[t] || []);\n      ttq.methods = [\"page\",\"track\",\"identify\",\"instances\",\"debug\",\"on\",\"off\",\"once\",\"ready\",\"alias\",\"group\",\"enableCookie\"];\n      ttq.setAndDefer = function(t, e) \x7b\n        t[e] = function() \x7b\n          t.push([e].concat(Array.prototype.slice.call(arguments, 0)));\n        \x7d;\n      \x7d;\n      for (var i = 0; i < ttq.methods.length; i++) ttq.setAndDefer(ttq, ttq.methods[i]);\n      ttq.instance = function(t) \x7b\n        var e = ttq._i[t] || [];\n        for (var n = 0; n < ttq.methods.length; n++) ttq.setAndDefer(e, ttq.methods[n]);\n        return e;\n      \x7d;\n      ttq.load = function(e, n) \x7b\n        var i = \"https://analytics.tiktok.com/i18n/pixel/events.js\";\n        ttq._i = ttq._i || \x7b\x7d;\n        ttq._i[e] = [];\n        ttq._i[e]._u = i;\n        ttq._t = ttq._t || \x7b\x7d;"
    ++ "\n        ttq._t[e] = +new Date();\n        ttq._o = ttq._o || \x7b\x7d;\n        ttq._o[e] = n || \x7b\x7d;\n        var o = document.createElement(\"script\");\n        o.type = \"text/javascript\";\n        o.async = true;\n        o.src = i + \"?sdkid=\" + e + \"&lib=\" + t;\n        var a = document.getElementsByTagName(\"script\")[0];\n        a.parentNode.insertBefore(o, a);\n      \x7d;\n      ttq.load(TIKTOK_ID);\n      ttq.page();\n      window[\x27ttq-init\x27] = true;\n      console.log(\x27✅ TikTok pixel injected\x27);\n    \x7d)(window, document, \x27ttq\x27);\n  \x7d\n\x7d;\n"

def content_styles_globals_css : String :=
  "/* Minimal global styles - Chakra handles rest */\nhtml,body,#__next\x7bheight:100%;\x7d\nbody\x7bmargin:0;font-family:Inter, system-ui, -apple-system, \x27Segoe UI\x27, Roboto, \x27Helvetica Neue\x27\x7d\n"

def content_pages_index_tsx : String :=
  "// pages/index.tsx\nimport \x7b\n  Box, Container, Heading, Text, Stack, Button,\n  SimpleGrid, Flex, VStack, Input, useColorModeValue\n\x7d from \x27@chakra-ui/react\x27;\nimport Link from \x27next/link\x27;\nimport \x7b motion \x7d from \x27framer-motion\x27;\nimport \x7b useState \x7d from \x27react\x27;\nimport Head from \x27next/head\x27;\n\nconst MotionBox = motion(Box);\n\nexport default function Home() \x7b\n  const [email, setEmail] = useState(\x27\x27);\n  const [loading, setLoading] = useState(false);\n\n  async function handleSignup() \x7b\n    setLoading(true);\n    const utm = typeof window !== \x27undefined\x27 ? window.__UTM__ || \x7b\x7d : \x7b\x7d;\n    const res = await fetch(\x27/api/signups/add\x27, \x7b\n      method: \x27POST\x27,\n      headers: \x7b \x27Content-Type\x27: \x27application/json\x27 \x7d,\n      body: JSON.stringify(\x7b email, source: \x27landing\x27, utm \x7d),\n    \x7d);\n    const data = await res.json();\n    if (data.ok) \x7b\n      if (typeof window !== \x27undefined\x27 && window.fbq) window.fbq(\x27track\x27, \x27Lead\x27);\n      alert(\x27Thanks! You\u2019re on the waitlist 🚀\x27);\n      setEmail(\x27\x27);\n    \x7d else \x7b\n      alert(\x27Error: \x27 + data.error);\n    \x7d\n    setLoading(false);\n  \x7d\n\n  return (\n    <>\n      <Head>\n        <title>Launch SaaS Ideas Fast | OnboardKit Scaffold</title>"
    ++ "\n        <meta name=\"description\" content=\"Validate SaaS ideas in days, not weeks. Full-stack Next.js + Stripe + Supabase scaffold.\" />\n        <meta property=\"og:title\" content=\"Launch SaaS Ideas Fast\" />\n        <meta property=\"og:description\" content=\"Full-stack SaaS starter kit with auth, billing, and analytics prewired.\" />\n        <meta property=\"og:image\" content=\"/og-cover.png\" />\n        <meta name=\"twitter:card\" content=\"summary_large_image\" />\n      </Head>\n\n      <Box\n        as=\"main\"\n        py=\x7b16\x7d\n        bgGradient=\x7buseColorModeValue(\n          \x27linear(to-b, gray.50, white)\x27,\n          \x27linear(to-b, gray.900, gray.800)\x27\n        )\x7d\n        minH=\"100vh\"\n      >\n        <Container maxW=\"6xl\">\n          <Stack spacing=\x7b10\x7d textAlign=\"center\">\n            <MotionBox\n              initial=\x7b\x7b opacity: 0, y: 30 \x7d\x7d\n              animate=\x7b\x7b opacity: 1, y: 0 \x7d\x7d\n              transition=\x7b\x7b duration: 0.8 \x7d\x7d\n            >\n              <Heading\n                size=\"2xl\"\n                bgGradient=\"linear(to-r, blue.500, teal.400)\"\n                bgClip=\"text\"\n              >\n                Turn ideas into paying users in days\n              </Heading>\n              <Text mt=\x7b4\x7d fontSize=\"xl\" color=\x7buseColorModeValue(\x27gray.600\x27, \x27gray.300\x27)\x7d>"
    ++ "\n                One command → live SaaS with auth, billing, analytics & hosting.\n              </Text>\n            </MotionBox>\n\n            <Flex justify=\"center\" gap=\x7b2\x7d>\n              <Input\n                placeholder=\"Enter your email\"\n                value=\x7bemail\x7d\n                onChange=\x7b(e) => setEmail(e.target.value)\x7d\n                maxW=\"300px\"\n                bg=\"white\"\n                color=\"black\"\n                _placeholder=\x7b\x7b color: \x27gray.500\x27 \x7d\x7d\n              />\n              <Button\n                colorScheme=\"blue\"\n                onClick=\x7bhandleSignup\x7d\n                isLoading=\x7bloading\x7d\n              >\n                Join Waitlist\n              </Button>\n            </Flex>\n\n            <Text fontSize=\"sm\" color=\"gray.500\">\n              Join 100+ founders validating faster ⚡\n            </Text>\n          </Stack>\n\n          <SimpleGrid columns=\x7b\x7b base: 1, md: 3 \x7d\x7d spacing=\x7b8\x7d mt=\x7b20\x7d id=\"features\">\n            \x7b[\n              \x7b\n                title: \x271-min Install\x27,\n                desc: \x27Next.js scaffold deploys to Netlify instantly.\x27,\n              \x7d,\n              \x7b\n                title: \x27Clerk + Stripe + Supabase\x27,\n                desc: \x27Pre-wired auth, billing, and analytics.\x27,\n              \x7d,\n              \x7b"
    ++ "\n                title: \x27Pixel-Ready\x27,\n                desc: \x27Meta, LinkedIn, and GA tracking auto-enabled.\x27,\n              \x7d,\n            ].map((f, i) => (\n              <MotionBox\n                key=\x7bi\x7d\n                p=\x7b8\x7d\n                borderWidth=\x7b1\x7d\n                rounded=\"2xl\"\n                shadow=\"md\"\n                bg=\x7buseColorModeValue(\x27white\x27, \x27gray.700\x27)\x7d\n                initial=\x7b\x7b opacity: 0, y: 20 \x7d\x7d\n                whileInView=\x7b\x7b opacity: 1, y: 0 \x7d\x7d\n                transition=\x7b\x7b duration: 0.5, delay: i * 0.2 \x7d\x7d\n              >\n                <Heading size=\"md\" mb=\x7b2\x7d>\x7bf.title\x7d</Heading>\n                <Text color=\"gray.500\">\x7bf.desc\x7d</Text>\n              </MotionBox>\n            ))\x7d\n          </SimpleGrid>\n\n          <Box mt=\x7b20\x7d textAlign=\"center\" id=\"pricing\">\n            <Heading size=\"lg\">Simple Pricing</Heading>\n            <Text color=\"gray.500\" mt=\x7b2\x7d>\n              Start free, upgrade only when you launch.\n            </Text>\n\n            <SimpleGrid columns=\x7b\x7b base: 1, md: 3 \x7d\x7d spacing=\x7b6\x7d mt=\x7b8\x7d>\n              \x7b[\x27Free\x27, \x27Pro\x27, \x27Enterprise\x27].map((plan, i) => (\n                <MotionBox\n                  key=\x7bplan\x7d\n                  p=\x7b8\x7d\n                  borderWidth=\x7bi === 1 ? 2 : 1\x7d\n                  rounded=\"2xl\""
    ++ "\n                  shadow=\x7bi === 1 ? \x27lg\x27 : \x27md\x27\x7d\n                  bg=\x7buseColorModeValue(\x27white\x27, \x27gray.700\x27)\x7d\n                  initial=\x7b\x7b opacity: 0, y: 20 \x7d\x7d\n                  whileInView=\x7b\x7b opacity: 1, y: 0 \x7d\x7d\n                  transition=\x7b\x7b duration: 0.4, delay: i * 0.15 \x7d\x7d\n                >\n                  <Heading size=\"md\">\x7bplan\x7d</Heading>\n                  <Text mt=\x7b2\x7d color=\"gray.500\">\n                    \x7bplan === \x27Free\x27\n                      ? \x27Test ideas quickly\x27\n                      : plan === \x27Pro\x27\n                      ? \x27Grow with analytics\x27\n                      : \x27Scale & integrate deeply\x27\x7d\n                  </Text>\n                  <Button\n                    mt=\x7b6\x7d\n                    colorScheme=\"blue\"\n                    variant=\x7bplan === \x27Pro\x27 ? \x27solid\x27 : \x27outline\x27\x7d\n                    as=\x7bLink\x7d\n                    href=\"/sign-up\"\n                  >\n                    \x7bplan === \x27Free\x27 ? \x27Start Free\x27 : \x27Get Started\x27\x7d\n                  </Button>\n                </MotionBox>\n              ))\x7d\n            </SimpleGrid>\n          </Box>\n\n          <Box mt=\x7b24\x7d textAlign=\"center\" id=\"faq\">\n            <Heading size=\"lg\">Frequently Asked Questions</Heading>\n            <VStack mt=\x7b6\x7d spacing=\x7b4\x7d align=\"stretch\">\n              \x7b[\n                \x7b"
    ++ "\n                  q: \x27How fast can I launch?\x27,\n                  a: \x27Under 1 day. Everything (auth, billing, analytics) is prewired.\x27,\n                \x7d,\n                \x7b\n                  q: \x27Do I need a backend?\x27,\n                  a: \x27No, serverless functions handle all API logic for you.\x27,\n                \x7d,\n                \x7b\n                  q: \x27Can I add my domain?\x27,\n                  a: \x27Yes — connect it easily in Netlify after deployment.\x27,\n                \x7d,\n              ].map((faq, i) => (\n                <MotionBox\n                  key=\x7bi\x7d\n                  p=\x7b5\x7d\n                  borderWidth=\x7b1\x7d\n                  rounded=\"xl\"\n                  bg=\x7buseColorModeValue(\x27white\x27, \x27gray.700\x27)\x7d\n                  initial=\x7b\x7b opacity: 0, y: 20 \x7d\x7d\n                  whileInView=\x7b\x7b opacity: 1, y: 0 \x7d\x7d\n                  transition=\x7b\x7b duration: 0.5, delay: i * 0.1 \x7d\x7d\n                >\n                  <Text fontWeight=\"bold\">\x7bfaq.q\x7d</Text>\n                  <Text color=\"gray.500\">\x7bfaq.a\x7d</Text>\n                </MotionBox>\n              ))\x7d\n            </VStack>\n          </Box>\n        </Container>\n      </Box>\n    </>\n  );\n\x7d\n"

def content_pages_sign_in_tsx : String :=
  "import \x7b useUser, SignedIn, SignedOut, SignInButton \x7d from \x27../lib/safeClerk\x27;\nexport default function SignInPage()\x7b return <SignIn routing=\"path\" path=\"/sign-in\" /> \x7d\n"

def content_pages_sign_up_tsx : String :=
  "import \x7b useUser, SignedIn, SignedOut, SignInButton \x7d from \x27../lib/safeClerk\x27;\nexport default function SignUpPage()\x7b return <SignUp routing=\"path\" path=\"/sign-up\" /> \x7d\n"

def content_pages_dashboard_tsx : String :=
  "// pages/dashboard.tsx\nimport \x7b useUser, SignedIn, SignedOut, SignInButton \x7d from \x27../lib/safeClerk\x27;\nimport \x7b Box, Button, Heading, Text, VStack \x7d from \x27@chakra-ui/react\x27;\nimport \x7b supabase \x7d from \x27../lib/supabaseClient\x27;\nimport FeedbackModal from \x27../components/FeedbackModal\x27;\nimport \x7b useState \x7d from \x27react\x27;\n\nexport default function Dashboard() \x7b\n  const \x7b user \x7d = useUser();\n  const [feedbacks, setFeedbacks] = useState([]);\n\n  async function submitFeedback(text) \x7b\n    if (!text) return;\n    await supabase.from(\x27events\x27).insert([\x7b type: \x27feedback\x27, data: \x7b text \x7d \x7d]);\n    setFeedbacks([...feedbacks, text]);\n  \x7d\n\n  return (\n    <Box p=\x7b8\x7d>\n      <SignedIn>\n        <Heading>Welcome, \x7buser?.firstName || user?.fullName || \x27friend\x27\x7d 👋</Heading>\n        <Text mt=\x7b4\x7d>\n          This is your dashboard. You can share feedback, check billing, or contact the founder.\n        </Text>\n        <VStack mt=\x7b6\x7d spacing=\x7b4\x7d align=\"start\">\n          <FeedbackModal onSubmit=\x7bsubmitFeedback\x7d />\n          \x7bfeedbacks.length > 0 && (\n            <Box>\n              <Text fontWeight=\"bold\" mb=\x7b2\x7d>Recent Feedback:</Text>\n              \x7bfeedbacks.map((fb, i) => (\n                <Text key=\x7bi\x7d fontSize=\"sm\" color=\"gray.600\">• \x7bfb\x7d</Text>\n              ))\x7d\n            </Box>\n          )\x7d\n        </VStack>\n      </SignedIn>\n      <SignedOut>\n        <Text>Please sign in to view dashboard.</Text>\n        <SignInButton>\n          <Button mt=\x7b4\x7d>Sign in</Button>\n        </SignInButton>\n      </SignedOut>\n    </Box>\n  );\n\x7d\n\n"

def content_pages_api_events_track_ts : String :=
  "import \x7b createClient \x7d from \x27@supabase/supabase-js\x27;\nexport default async function handler(req, res) \x7b\n  const SUPABASE_URL = process.env.SUPABASE_URL;\n  const SUPABASE_KEY = process.env.SUPABASE_SERVICE_ROLE_KEY;\n  if (!SUPABASE_URL || !SUPABASE_KEY) return res.status(500).json(\x7b error: \x27supabase not configured\x27 \x7d);\n  const sb = createClient(SUPABASE_URL, SUPABASE_KEY);\n  const \x7b type, data \x7d = req.body || \x7b\x7d;\n  const row = \x7b type, data, created_at: new Date().toISOString() \x7d;\n  const \x7b error \x7d = await sb.from(\x27events\x27).insert([row]);\n  if (error) return res.status(500).json(\x7b error: error.message \x7d);\n  res.json(\x7b ok: true \x7d);\n\x7d\n"

def content_pages_api_stripe_create_checkout_ts : String :=
  "import Stripe from \x27stripe\x27;\nconst stripe = new Stripe(process.env.STRIPE_SECRET_KEY || \x27\x27, \x7b apiVersion: \x272022-11-15\x27 \x7d);\n\nexport default async function handler(req, res) \x7b\n  if (req.method !== \x27POST\x27) return res.status(405).end();\n  const \x7b priceId \x7d = req.body;\n  if (!priceId) return res.status(400).json(\x7b error: \x27missing priceId\x27 \x7d);\n  const session = await stripe.checkout.sessions.create(\x7b\n    mode: \x27subscription\x27,\n    payment_method_types: [\x27card\x27],\n    line_items: [\x7b price: priceId, quantity: 1 \x7d],\n    success_url: process.env.SUCCESS_URL,\n    cancel_url: process.env.CANCEL_URL,\n  \x7d);\n  res.json(\x7b url: session.url \x7d);\n\x7d\n"

def content_pages_api_stripe_webhook_ts : String :=
  "import Stripe from \x27stripe\x27;\nimport \x7b buffer \x7d from \x27micro\x27;\nexport const config = \x7b api: \x7b bodyParser: false \x7d \x7d;\nconst stripe = new Stripe(process.env.STRIPE_SECRET_KEY || \x27\x27, \x7b apiVersion: \x272022-11-15\x27 \x7d);\n\nexport default async function handler(req, res) \x7b\n  const sig = req.headers[\x27stripe-signature\x27];\n  const buf = await buffer(req);\n  try \x7b\n    const evt = stripe.webhooks.constructEvent(buf, sig, process.env.STRIPE_WEBHOOK_SECRET || \x27\x27);\n    // handle events: checkout.session.completed etc\n    console.log(\x27stripe event\x27, evt.type);\n    res.json(\x7b received: true \x7d);\n  \x7d catch (err) \x7b\n    console.error(\x27webhook error\x27, err);\n    res.status(400).send(\x27err\x27);\n  \x7d\n\x7d\n"

def content_pages_api_health_ts : String :=
  "export default function handler(req, res) \x7b res.json(\x7b ok: true, now: Date.now() \x7d); \x7d\n"

def content_pages_blog_index_tsx : String :=
  "import \x7b Box, Heading \x7d from \x27@chakra-ui/react\x27;\nexport default function Blog() \x7b\n  return (\n    <Box p=\x7b8\x7d>\n      <Heading>Blog</Heading>\n      <Box mt=\x7b6\x7d bgImage=\"url(\x27/shared-hero.jpg\x27)\" bgSize=\"cover\" h=\"48\" borderRadius=\"md\" />\n    </Box>\n  );\n\x7d\n"

def content_public_shared_hero_jpg : String :=
  ""

def content_pages_founder_tsx : String :=
  "import \x7b Box, Heading \x7d from \x27@chakra-ui/react\x27;\nexport default function Founder() \x7b\n  const items = [\x7btitle:\x27Run ad test\x27, desc:\x277–14 days\x27\x7d, \x7btitle:\x27First paid\x27, desc:\x27Convert a user\x27\x7d];\n  return (<Box p=\x7b8\x7d><Heading>Founder Dashboard</Heading><Box mt=\x7b4\x7d>\x7bitems.map((it,i)=> <Box key=\x7bi\x7d p=\x7b3\x7d borderWidth=\x7b1\x7d rounded=\"md\" mb=\x7b2\x7d><b>\x7bit.title\x7d</b><div>\x7bit.desc\x7d</div></Box>)\x7d</Box></Box>)\n\x7d\n"

def content__github_workflows_deploy_yml : String :=
  "name: Build and Deploy to Netlify\non:\n  push:\n    branches: [ \x27main\x27 ]\njobs:\n  build-and-deploy:\n    runs-on: ubuntu-latest\n    steps:\n      - uses: actions/checkout@v4\n      - name: Setup Node\n        uses: actions/setup-node@v4\n        with:\n          node-version: 18\n      - name: Install dependencies\n        run: npm ci\n      - name: Build\n        run: npm run build\n      - name: Deploy to Netlify\n        uses: nwtgck/actions-netlify@v1.2.4\n        with:\n          publish-dir: \".next\"\n          production-deploy: true\n        env:\n          NETLIFY_AUTH_TOKEN: $\x7b\x7b secrets.NETLIFY_AUTH_TOKEN \x7d\x7d\n          NETLIFY_SITE_ID: $\x7b\x7b secrets.NETLIFY_SITE_ID \x7d\x7d\n"

def content_README_md_v2 (name : String) : String :=
  "# " ++ name ++ "\n\n## Quickstart (local)\n1. Copy .env.staging -> .env.local and fill values (CLERK keys, SUPABASE, STRIPE keys).\n2. Run: npm run dev\n\n## Netlify / GitHub Actions\n- Add NETLIFY_AUTH_TOKEN and NETLIFY_SITE_ID to GitHub Secrets. The workflow will auto-deploy on push to main.\n- Create a Netlify site and enable the Next.js plugin (@netlify/plugin-nextjs).\n"

def content_drip_sequence_json : String :=
  "[\n  \x7b\n    \"day\": 0,\n    \"subject\": \"Welcome to \x7b\x7bapp_name\x7d\x7d 🎉\",\n    \"body\": \"Hey \x7b\x7bfirst_name\x7d\x7d,\\n\\nThanks for joining \x7b\x7bapp_name\x7d\x7d. Here\u2019s how to get started today...\"\n  \x7d,\n  \x7b\n    \"day\": 2,\n    \"subject\": \"How \x7b\x7bapp_name\x7d\x7d helps you hit your goal faster 🚀\"\n  \x7d,\n  \x7b\n    \"day\": 5,\n    \"subject\": \"Don\u2019t miss this: exclusive early user bonus 🔥\",\n    \"body\": \"We\u2019re closing early access soon. Secure your spot before it\u2019s gone → \x7b\x7bcta_link\x7d\x7d\"\n  \x7d\n]"

def content_outreach_templates_email_txt : String :=
  "Subject: \x7b\x7bfirst_name\x7d\x7d, quick question about \x7b\x7bpain_point\x7d\x7d\n\nHey \x7b\x7bfirst_name\x7d\x7d,\n\nNoticed you \x7b\x7bcontext\x7d\x7d — built something that helps \x7b\x7bpersona\x7d\x7d solve \x7b\x7bpain_point\x7d\x7d faster.\n\nWould you be open to a 5-min demo? It\u2019s built for \x7b\x7bpersona\x7d\x7ds like you.\n\n\x7b\x7bsignature\x7d\x7d\n"

def content_outreach_templates_twitter_dm_txt : String :=
  "Hey \x7b\x7bfirst_name\x7d\x7d 👋 saw your post about \x7b\x7btopic\x7d\x7d.  \nWe just launched \x7b\x7bapp_name\x7d\x7d — helps \x7b\x7bpersona\x7d\x7d save \x7b\x7bbenefit\x7d\x7d.  \nWant early access?"

def content_components_FeedbackModal_tsx : String :=
  "import \x7b useState \x7d from \x27react\x27;\nimport \x7b Box, Button, Modal, ModalOverlay, ModalContent, ModalHeader, ModalBody, Textarea \x7d from \x27@chakra-ui/react\x27;\nexport default function FeedbackModal(\x7b onSubmit \x7d: \x7b onSubmit: (text: string) => void \x7d) \x7b\n  const [isOpen, setOpen] = useState(false);\n  const [msg, setMsg] = useState(\x27\x27);\n  return (\n    <Box>\n      <Button onClick=\x7b()=>setOpen(true)\x7d>💬 Feedback</Button>\n      <Modal isOpen=\x7bisOpen\x7d onClose=\x7b()=>setOpen(false)\x7d>\n        <ModalOverlay />\n        <ModalContent>\n          <ModalHeader>Share Feedback</ModalHeader>\n          <ModalBody>\n            <Textarea placeholder=\"What\x27s on your mind?\" value=\x7bmsg\x7d onChange=\x7be=>setMsg(e.target.value)\x7d />\n            <Button mt=\x7b4\x7d colorScheme=\"blue\" onClick=\x7b()=>\x7bonSubmit(msg);setMsg(\x27\x27);setOpen(false);\x7d\x7d>Submit</Button>\n          </ModalBody>\n        </ModalContent>\n      </Modal>\n    </Box>\n  );\n\x7d"

def content_marketing_launch_twitter_thread_txt : String :=
  "🔥 Just launched \x7b\x7bapp_name\x7d\x7d 🚀\n\nOne command → full SaaS stack:\nNext.js + Chakra + Clerk + Supabase + Stripe\n+ Netlify auto-deploy.\n\nBuilt to validate ideas FAST.\n\nTry it: \x7b\x7bapp_url\x7d\x7d\n"

def content_marketing_launch_product_hunt_txt : String :=
  "We built \x7b\x7bapp_name\x7d\x7d to help founders launch faster 🚀\n• 2-min setup\n• Built-in auth + billing\n• Live in one command\nJoin early access 👉 \x7b\x7bapp_url\x7d\x7d\n"

def content_marketing_launch_indiehackers_txt : String :=
  "Hey IH 👋 just shipped \x7b\x7bapp_name\x7d\x7d!\nFull SaaS scaffold: Auth, Billing, Deploy pre-wired.\nWould love feedback: \x7b\x7bapp_url\x7d\x7d"

/-- The ordered act script of `createScaffold` (writes and explicit mkdirs),
    relative to the target directory, in source order. -/
def script (name : String) : List Act :=
  [ Act.writeRel "package.json" (pkgJsonContent name),
    Act.writeRel "README.md" (content_README_md name),
    Act.writeRel "netlify.toml" content_netlify_toml,
    Act.writeRel ".gitignore" content__gitignore,
    Act.writeRel ".env.staging" (content__env_staging name),
    Act.writeRel ".env.production" (content__env_production name),
    Act.writeRel ".env.local" (content__env_local name),
    Act.writeRel "supabase/init.sql" content_supabase_init_sql,
    Act.writeRel "lib/supabaseClient.ts" content_lib_supabaseClient_ts,
    Act.writeRel "lib/safeClerk.tsx" content_lib_safeClerk_tsx,
    Act.writeRel "pages/api/signups/add.ts" content_pages_api_signups_add_ts,
    Act.writeRel "next.config.js" content_next_config_js,
    Act.writeRel "pages/_app.tsx" content_pages_app_tsx,
    Act.writeRel "lib/analytics.ts" content_lib_analytics_ts,
    Act.writeRel "lib/ads.ts" content_lib_ads_ts,
    Act.writeRel "styles/globals.css" content_styles_globals_css,
    Act.writeRel "pages/index.tsx" content_pages_index_tsx,
    Act.writeRel "pages/sign-in.tsx" content_pages_sign_in_tsx,
    Act.writeRel "pages/sign-up.tsx" content_pages_sign_up_tsx,
    Act.writeRel "pages/dashboard.tsx" content_pages_dashboard_tsx,
    Act.writeRel "pages/api/events/track.ts" content_pages_api_events_track_ts,
    Act.writeRel "pages/api/stripe/create-checkout.ts" content_pages_api_stripe_create_checkout_ts,
    Act.writeRel "pages/api/stripe/webhook.ts" content_pages_api_stripe_webhook_ts,
    Act.writeRel "pages/api/health.ts" content_pages_api_health_ts,
    Act.writeRel "pages/blog/index.tsx" content_pages_blog_index_tsx,
    Act.writeRel "public/shared-hero.jpg" content_public_shared_hero_jpg,
    Act.writeRel "pages/founder.tsx" content_pages_founder_tsx,
    Act.mkdirRel "netlify",
    Act.writeRel ".github/workflows/deploy.yml" content__github_workflows_deploy_yml,
    Act.writeRel "README.md" (content_README_md_v2 name),
    Act.writeRel "drip/sequence.json" content_drip_sequence_json,
    Act.writeRel "outreach/templates/email.txt" content_outreach_templates_email_txt,
    Act.writeRel "outreach/templates/twitter-dm.txt" content_outreach_templates_twitter_dm_txt,
    Act.writeRel "components/FeedbackModal.tsx" content_components_FeedbackModal_tsx,
    Act.mkdirRel "marketing/launch",
    Act.writeRel "marketing/launch/twitter-thread.txt" content_marketing_launch_twitter_thread_txt,
    Act.writeRel "marketing/launch/product-hunt.txt" content_marketing_launch_product_hunt_txt,
    Act.writeRel "marketing/launch/indiehackers.txt" content_marketing_launch_indiehackers_txt ]

/-- The constant (name-independent) contents of the Project Tree Definition. -/
def constContents : List String :=
  [ content_netlify_toml,
    content__gitignore,
    content_supabase_init_sql,
    content_lib_supabaseClient_ts,
    content_lib_safeClerk_tsx,
    content_pages_api_signups_add_ts,
    content_next_config_js,
    content_pages_app_tsx,
    content_lib_analytics_ts,
    content_lib_ads_ts,
    content_styles_globals_css,
    content_pages_index_tsx,
    content_pages_sign_in_tsx,
    content_pages_sign_up_tsx,
    content_pages_dashboard_tsx,
    content_pages_api_events_track_ts,
    content_pages_api_stripe_create_checkout_ts,
    content_pages_api_stripe_webhook_ts,
    content_pages_api_health_ts,
    content_pages_blog_index_tsx,
    content_public_shared_hero_jpg,
    content_pages_founder_tsx,
    content__github_workflows_deploy_yml,
    content_drip_sequence_json,
    content_outreach_templates_email_txt,
    content_outreach_templates_twitter_dm_txt,
    content_components_FeedbackModal_tsx,
    content_marketing_launch_twitter_thread_txt,
    content_marketing_launch_product_hunt_txt,
    content_marketing_launch_indiehackers_txt ]

/-- The write entries of the Project Tree Definition, in source order. -/
def treeEntries (name : String) : List (String × String) :=
  (script name).filterMap (fun a =>
    match a with
    | .writeRel rel c => some (rel, c)
    | _ => none)

/-- `createScaffold(dir, opts)`: refuse an existing target (log and
`process.exit(1)`), otherwise `mkdirSync(dir)` and run the script.  The
second component is the exit code demanded by `process.exit`, `none`
meaning normal continuation. -/
def createScaffold (fs : Fs) (d : Path) (name : String) : Fs × Option Nat :=
  if fs.existsPath d then (fs, some 1)
  else ((script name).foldl (applyAct d) (fs.mkdirRec d), none)

/-- The contribution of one act to the file at relative segments `k`. -/
def actWrite (a : Act) (k : Path) : Option String :=
  match a with
  | .writeRel r c => if relSegs r = k then some c else none
  | _ => none

/-- The content of the LAST write of the script to relative path with
segments `k` (later writes overwrite earlier ones). -/
def findLastContent : List Act → Path → Option String
  | [], _ => none
  | a :: t, k =>
    match findLastContent t k with
    | some c => some c
    | none => actWrite a k

theorem lookupFile_foldActs (d k : Path) :
    ∀ (acts : List Act) (fs0 : Fs),
      (acts.foldl (applyAct d) fs0).lookupFile (d ++ k) =
        match findLastContent acts k with
        | some c => some c
        | none => fs0.lookupFile (d ++ k) := by
  intro acts
  induction acts with
  | nil => intro fs0; rfl
  | cons a t ih =>
    intro fs0
    rw [List.foldl_cons, ih]
    cases hft : findLastContent t k with
    | some c => rw [findLastContent, hft]
    | none =>
      rw [findLastContent, hft]
      cases a with
      | mkdirRel rel => rfl
      | writeRel rel c =>
        show (if d ++ relSegs rel = d ++ k then some c else fs0.lookupFile (d ++ k)) = _
        by_cases hr : relSegs rel = k
        · simp [hr, actWrite]
        · have hne : ¬ (d ++ relSegs rel = d ++ k) :=
            fun h => hr (List.append_cancel_left h)
          simp [hne, hr, actWrite]

/-- **C2.** If the target directory already exists when scaffold is
invoked, `createScaffold` performs zero filesystem writes (the filesystem
is returned unchanged — the guard runs before any `mkdirSync`/`write`)
and terminates the process with exit status 1, which is non-zero. -/
theorem C2_collision_guard (fs : Fs) (d : Path) (name : String)
    (h : fs.existsPath d = true) :
    createScaffold fs d name = (fs, some 1) ∧ (1 : Nat) ≠ 0 :=
  ⟨by simp [createScaffold, h], by decide⟩

/-- Witness for C2: an existing directory `["app"]` on a filesystem that
contains it. -/
theorem C2_collision_guard_witness :
    createScaffold ⟨[["app"]], []⟩ ["app"] "x" = (⟨[["app"]], []⟩, some 1) ∧ (1 : Nat) ≠ 0 :=
  C2_collision_guard ⟨[["app"]], []⟩ ["app"] "x" (by decide)

/-! ## Confinement of writes (C6) -/

def strictlyInside (d p : Path) : Prop := ∃ r, r ≠ [] ∧ p = d ++ r

theorem prefix_append_cases {q d x : Path} (h : q <+: d ++ x) :
    q <+: d ∨ ∃ r, r ≠ [] ∧ r <+: x ∧ q = d ++ r := by
  induction d generalizing q with
  | nil =>
    simp only [List.nil_append] at h
    rcases q with _ | ⟨b, q'⟩
    · exact Or.inl List.nil_prefix
    · exact Or.inr ⟨b :: q', by simp, h, rfl⟩
  | cons a d' ih =>
    rcases q with _ | ⟨b, q'⟩
    · exact Or.inl List.nil_prefix
    · rw [List.cons_append, List.cons_prefix_cons] at h
      obtain ⟨rfl, h'⟩ := h
      rcases ih h' with h1 | ⟨r, hr, hrx, rfl⟩
      · exact Or.inl (List.cons_prefix_cons.mpr ⟨rfl, h1⟩)
      · exact Or.inr ⟨r, hr, hrx, rfl⟩

theorem mem_prefixesOf {q p : Path} (h : q ∈ prefixesOf p) : q <+: p := by
  unfold prefixesOf at h
  simp only [List.mem_map, List.mem_range] at h
  obtain ⟨i, -, rfl⟩ := h
  exact List.take_prefix _ _

/-- Invariant relating the running filesystem to the initial one: files
are old or strictly inside the target; directories are old, the target or
an ancestor of it, or strictly inside the target. -/
def fsInv (fs0 : Fs) (d : Path) (fs : Fs) : Prop :=
  (∀ p c, (p, c) ∈ fs.files → (p, c) ∈ fs0.files ∨ strictlyInside d p) ∧
  (∀ p, p ∈ fs.dirs → p ∈ fs0.dirs ∨ p <+: d ∨ strictlyInside d p)

theorem fsInv_mkdirRec {fs0 : Fs} {d : Path} {fs : Fs} (h : fsInv fs0 d fs) (x : Path) :
    fsInv fs0 d (fs.mkdirRec (d ++ x)) := by
  refine ⟨h.1, ?_⟩
  intro p hp
  simp only [Fs.mkdirRec, List.mem_append] at hp
  rcases hp with hp | hp
  · rcases prefix_append_cases (mem_prefixesOf hp) with h1 | ⟨r, hr, -, rfl⟩
    · exact Or.inr (Or.inl h1)
    · exact Or.inr (Or.inr ⟨r, hr, rfl⟩)
  · exact h.2 p hp

theorem fsInv_mkdirRec_self {fs0 : Fs} {d : Path} {fs : Fs} (h : fsInv fs0 d fs) :
    fsInv fs0 d (fs.mkdirRec d) := by
  refine ⟨h.1, ?_⟩
  intro p hp
  simp only [Fs.mkdirRec, List.mem_append] at hp
  rcases hp with hp | hp
  · exact Or.inr (Or.inl (mem_prefixesOf hp))
  · exact h.2 p hp

theorem fsInv_writeFile {fs0 : Fs} {d : Path} {fs : Fs} (h : fsInv fs0 d fs)
    (x : Path) (hx : x ≠ []) (c : String) :
    fsInv fs0 d (fs.writeFile (d ++ x) c) := by
  constructor
  · intro p c' hp
    simp only [Fs.writeFile, List.mem_cons] at hp
    rcases hp with hp | hp
    · obtain ⟨rfl, rfl⟩ := Prod.mk.injEq .. ▸ hp
      exact Or.inr ⟨x, hx, rfl⟩
    · exact h.1 p c' hp
  · intro p hp
    simp only [Fs.writeFile, List.mem_append] at hp
    rcases hp with hp | hp
    · have h1 : p <+: d ++ x := (mem_prefixesOf hp).trans (List.dropLast_prefix _)
      rcases prefix_append_cases h1 with h2 | ⟨r, hr, -, rfl⟩
      · exact Or.inr (Or.inl h2)
      · exact Or.inr (Or.inr ⟨r, hr, rfl⟩)
    · exact h.2 p hp

theorem fsInv_foldActs {fs0 : Fs} (d : Path) :
    ∀ (acts : List Act) (fs : Fs), fsInv fs0 d fs →
      fsInv fs0 d (acts.foldl (applyAct d) fs) := by
  intro acts
  induction acts with
  | nil => intro fs h; exact h
  | cons a t ih =>
    intro fs h
    rw [List.foldl_cons]
    apply ih
    cases a with
    | mkdirRel rel => exact fsInv_mkdirRec h (relSegs rel)
    | writeRel rel c => exact fsInv_writeFile h (relSegs rel) (relSegs_ne_nil rel) c

/-- **C6 (amended).** On a fresh target, every file created by
`createScaffold` lies strictly inside the target directory, and every
directory created is the target directory itself, an ancestor of it
(ensured by the initial recursive `mkdirSync`), or lies strictly inside
the target directory.  (The original claim — that every created file *or
directory* lies strictly inside the target — fails for the target
directory itself, see the counterexample.) -/
theorem C6_confinement (fs : Fs) (d : Path) (name : String)
    (hd : fs.existsPath d = false) :
    (∀ p c, (p, c) ∈ ((createScaffold fs d name).1).files →
        (p, c) ∈ fs.files ∨ strictlyInside d p) ∧
    (∀ p, p ∈ ((createScaffold fs d name).1).dirs →
        p ∈ fs.dirs ∨ p <+: d ∨ strictlyInside d p) := by
  have h0 : fsInv fs d fs := ⟨fun p c hp => Or.inl hp, fun p hp => Or.inl hp⟩
  have h1 := fsInv_foldActs d (script name) _ (fsInv_mkdirRec_self h0)
  unfold createScaffold
  simp only [hd, Bool.false_eq_true, if_false]
  exact h1

/-- Counterexample to C6 as stated: the target directory `["app"]` itself
is created by the invocation (it is among the created directories) but
does not lie strictly inside itself. -/
theorem C6_counterexample :
    ["app"] ∈ ((createScaffold (Fs.mk [] []) ["app"] "x").1).dirs ∧
      ["app"] ∉ (Fs.mk [] []).dirs ∧ ¬ strictlyInside ["app"] ["app"] := by
  refine ⟨by decide, by decide, ?_⟩
  rintro ⟨r, hr, h⟩
  apply hr
  have hlen := congrArg List.length h
  simp only [List.length_append, List.length_cons, List.length_nil] at hlen
  exact List.eq_nil_of_length_eq_zero (by omega)

/-- Witness for C6 (amended) at a concrete fresh target. -/
theorem C6_confinement_witness :
    (∀ p c, (p, c) ∈ ((createScaffold (Fs.mk [] []) ["app"] "x").1).files →
        (p, c) ∈ (Fs.mk [] []).files ∨ strictlyInside ["app"] p) ∧
    (∀ p, p ∈ ((createScaffold (Fs.mk [] []) ["app"] "x").1).dirs →
        p ∈ (Fs.mk [] []).dirs ∨ p <+: ["app"] ∨ strictlyInside ["app"] p) :=
  C6_confinement (Fs.mk [] []) ["app"] "x" (by decide)

theorem lastNonTok_append (x y : String) (hy : y.data ≠ []) :
    lastNonTok (x ++ y) = lastNonTok y := by
  unfold lastNonTok
  have hd : (x ++ y).data = x.data ++ y.data := rfl
  rw [hd, List.getLast?_append]
  cases hg : y.data.getLast? with
  | none =>
    rcases hyd : y.data with _ | ⟨c, t⟩
    · exact absurd hyd hy
    · rw [hyd] at hg
      have : (c :: t).getLast? = some ((c :: t).getLast (by simp)) :=
        List.getLast?_eq_getLast _ _
      rw [this] at hg
      cases hg
  | some c => rfl

theorem hasResidual_spaces (ind : Nat) : hasResidualKnownPh (spaces ind) = false := by
  unfold hasResidualKnownPh
  simp only [List.any_eq_false, Bool.not_eq_true]
  intro k hk
  obtain ⟨hne, hall, hhead⟩ := knownTok_facts k hk
  have hmem : '\x7b' ∉ (spaces ind).data := by
    show '\x7b' ∉ List.replicate ind ' '
    simp [List.mem_replicate]
  have hsk := occursIn_skip hhead hmem []
  rw [List.append_nil] at hsk
  rw [hsk, occursIn_nil_of_ne hne]

theorem headNonTok_spaces (ind : Nat) : headNonTok (spaces ind) = true := by
  cases ind with
  | zero => decide
  | succ n =>
    unfold headNonTok
    have hd : (spaces (n + 1)).data = ' ' :: List.replicate n ' ' := by
      show List.replicate (n + 1) ' ' = _
      rw [List.replicate_succ]
    rw [hd]
    rfl

theorem lastNonTok_spaces_append (A : String) (hA : lastNonTok A = true) (ind : Nat) :
    lastNonTok (A ++ spaces ind) = true := by
  cases ind with
  | zero =>
    unfold lastNonTok at hA ⊢
    have hd : (A ++ spaces 0).data = A.data := by
      show A.data ++ [] = A.data
      simp
    rw [hd]
    exact hA
  | succ n =>
    unfold lastNonTok
    have hd : (A ++ spaces (n + 1)).data = A.data ++ List.replicate (n + 1) ' ' := rfl
    have hl : (List.replicate (n + 1) ' ').getLast? = some ' ' := by
      rw [List.replicate_succ', List.getLast?_append]
      rfl
    rw [hd, List.getLast?_append, hl]
    rfl

/-! `JVal.clean`: all string leaves (field names and string values) of a
JSON value are free of residual known placeholders. -/
mutual
def JVal.clean : JVal → Bool
  | .str s => !(hasResidualKnownPh s)
  | .boolean _ => true
  | .obj fs => JFields.clean fs
def JFields.clean : JFields → Bool
  | .nil => true
  | .cons k v rest => !(hasResidualKnownPh k) && JVal.clean v && JFields.clean rest
end

mutual
theorem JVal.stringifyClean : ∀ (ind : Nat) (v : JVal), JVal.clean v = true →
    hasResidualKnownPh (JVal.stringify ind v) = false
  | ind, .str s, h => by
    have hs : hasResidualKnownPh s = false := by
      simpa [JVal.clean, Bool.not_eq_true'] using h
    show hasResidualKnownPh ("\"" ++ jsonEscape s ++ "\"") = false
    exact hasResidualKnownPh_splice3 "\"" "\"" (by decide) (by decide) (by decide)
      (by decide) (jsonEscape s) (hasResidual_escape hs)
  | ind, .boolean b, _ => by cases b <;> rfl
  | ind, .obj .nil, _ => by rfl
  | ind, .obj (.cons k v rest), h => by
    have hF := JFields.stringifyCleanF (ind + 2) (.cons k v rest)
      (by simpa [JVal.clean] using h)
    show hasResidualKnownPh
      ((("\x7b\n" ++ JFields.stringify (ind + 2) (.cons k v rest) ++ "\n")
        ++ spaces ind) ++ "\x7d") = false
    apply hasResidualKnownPh_append_last
    · apply lastNonTok_spaces_append
      rw [lastNonTok_append _ "\n" (by decide)]
      decide
    · apply hasResidualKnownPh_append_head _ _ (headNonTok_spaces ind)
      · apply hasResidualKnownPh_append_head _ "\n" (by decide)
        · exact hasResidualKnownPh_append_last "\x7b\n" _ (by decide) (by decide) hF
        · decide
      · exact hasResidual_spaces ind
    · decide
theorem JFields.stringifyCleanF : ∀ (ind : Nat) (fs : JFields), JFields.clean fs = true →
    hasResidualKnownPh (JFields.stringify ind fs) = false
  | ind, .nil, _ => by rfl
  | ind, .cons k v .nil, h => by
    obtain ⟨⟨hk, hv⟩, -⟩ : (hasResidualKnownPh k = false ∧ JVal.clean v = true) ∧ True := by
      simpa [JFields.clean, Bool.and_eq_true, Bool.not_eq_true'] using h
    show hasResidualKnownPh
      ((((spaces ind ++ "\"") ++ jsonEscape k) ++ "\": ") ++ JVal.stringify ind v) = false
    apply hasResidualKnownPh_append_last
    · rw [lastNonTok_append _ "\": " (by decide)]
      decide
    · apply hasResidualKnownPh_append_head _ "\": " (by decide)
      · apply hasResidualKnownPh_append_last
        · rw [lastNonTok_append _ "\"" (by decide)]
          decide
        · exact hasResidualKnownPh_append_head _ "\"" (by decide)
            (hasResidual_spaces ind) (by decide)
        · exact hasResidual_escape hk
      · decide
    · exact JVal.stringifyClean ind v hv
  | ind, .cons k v (.cons k' v' rest'), h => by
    obtain ⟨⟨hk, hv⟩, hr⟩ : (hasResidualKnownPh k = false ∧ JVal.clean v = true) ∧
        JFields.clean (.cons k' v' rest') = true := by
      simpa [JFields.clean, Bool.and_eq_true, Bool.not_eq_true'] using h
    have hR := JFields.stringifyCleanF ind (.cons k' v' rest') hr
    show hasResidualKnownPh
      (((((((spaces ind ++ "\"") ++ jsonEscape k) ++ "\": ")
        ++ JVal.stringify ind v) ++ ",\n")) ++ JFields.stringify ind (.cons k' v' rest'))
      = false
    apply hasResidualKnownPh_append_last
    · rw [lastNonTok_append _ ",\n" (by decide)]
      decide
    · apply hasResidualKnownPh_append_head _ ",\n" (by decide)
      · apply hasResidualKnownPh_append_last
        · rw [lastNonTok_append _ "\": " (by decide)]
          decide
        · apply hasResidualKnownPh_append_head _ "\": " (by decide)
          · apply hasResidualKnownPh_append_last
            · rw [lastNonTok_append _ "\"" (by decide)]
              decide
            · exact hasResidualKnownPh_append_head _ "\"" (by decide)
                (hasResidual_spaces ind) (by decide)
            · exact hasResidual_escape hk
          · decide
        · exact JVal.stringifyClean ind v hv
      · decide
    · exact hR
end

/-- `basePackageJson name` is clean whenever the name itself carries no
residual known placeholder (all other string leaves are literals). -/
theorem basePackageJson_clean {name : String}
    (hname : hasResidualKnownPh name = false) :
    JVal.clean (basePackageJson name) = true := by
  unfold basePackageJson
  simp only [JVal.clean, JFields.clean, hname]
  decide

/-- The generated `package.json` carries no residual known placeholder
when the project name carries none. -/
theorem pkgJsonContent_residual {name : String}
    (hname : hasResidualKnownPh name = false) :
    hasResidualKnownPh (pkgJsonContent name) = false :=
  JVal.stringifyClean 0 (basePackageJson name) (basePackageJson_clean hname)

/-! ## Residual-placeholder freeness of the tree contents -/

theorem content__github_workflows_deploy_yml_residual : hasResidualKnownPh content__github_workflows_deploy_yml = false := by decide

theorem content__gitignore_residual : hasResidualKnownPh content__gitignore = false := by decide

theorem content_components_FeedbackModal_tsx_residual : hasResidualKnownPh content_components_FeedbackModal_tsx = false := by decide

theorem content_drip_sequence_json_residual : hasResidualKnownPh content_drip_sequence_json = false := by decide

theorem content_lib_ads_ts_residual : hasResidualKnownPh content_lib_ads_ts = false := by
  unfold content_lib_ads_ts
  refine hasResidualKnownPh_append_head _ _ (by decide) ?_ (by decide)
  refine hasResidualKnownPh_append_head _ _ (by decide) ?_ (by decide)
  decide

theorem content_lib_analytics_ts_residual : hasResidualKnownPh content_lib_analytics_ts = false := by decide

theorem content_lib_safeClerk_tsx_residual : hasResidualKnownPh content_lib_safeClerk_tsx = false := by decide

theorem content_lib_supabaseClient_ts_residual : hasResidualKnownPh content_lib_supabaseClient_ts = false := by decide

theorem content_marketing_launch_indiehackers_txt_residual : hasResidualKnownPh content_marketing_launch_indiehackers_txt = false := by decide

theorem content_marketing_launch_product_hunt_txt_residual : hasResidualKnownPh content_marketing_launch_product_hunt_txt = false := by decide

theorem content_marketing_launch_twitter_thread_txt_residual : hasResidualKnownPh content_marketing_launch_twitter_thread_txt = false := by decide

theorem content_netlify_toml_residual : hasResidualKnownPh content_netlify_toml = false := by decide

theorem content_next_config_js_residual : hasResidualKnownPh content_next_config_js = false := by decide

theorem content_outreach_templates_email_txt_residual : hasResidualKnownPh content_outreach_templates_email_txt = false := by decide

theorem content_outreach_templates_twitter_dm_txt_residual : hasResidualKnownPh content_outreach_templates_twitter_dm_txt = false := by decide

theorem content_pages_api_events_track_ts_residual : hasResidualKnownPh content_pages_api_events_track_ts = false := by decide

theorem content_pages_api_health_ts_residual : hasResidualKnownPh content_pages_api_health_ts = false := by decide

theorem content_pages_api_signups_add_ts_residual : hasResidualKnownPh content_pages_api_signups_add_ts = false := by decide

theorem content_pages_api_stripe_create_checkout_ts_residual : hasResidualKnownPh content_pages_api_stripe_create_checkout_ts = false := by decide

theorem content_pages_api_stripe_webhook_ts_residual : hasResidualKnownPh content_pages_api_stripe_webhook_ts = false := by decide

theorem content_pages_app_tsx_residual : hasResidualKnownPh content_pages_app_tsx = false := by decide

theorem content_pages_blog_index_tsx_residual : hasResidualKnownPh content_pages_blog_index_tsx = false := by decide

theorem content_pages_dashboard_tsx_residual : hasResidualKnownPh content_pages_dashboard_tsx = false := by decide

theorem content_pages_founder_tsx_residual : hasResidualKnownPh content_pages_founder_tsx = false := by decide

theorem content_pages_index_tsx_residual : hasResidualKnownPh content_pages_index_tsx = false := by
  unfold content_pages_index_tsx
  refine hasResidualKnownPh_append_head _ _ (by decide) ?_ (by decide)
  refine hasResidualKnownPh_append_head _ _ (by decide) ?_ (by decide)
  refine hasResidualKnownPh_append_head _ _ (by decide) ?_ (by decide)
  refine hasResidualKnownPh_append_head _ _ (by decide) ?_ (by decide)
  refine hasResidualKnownPh_append_head _ _ (by decide) ?_ (by decide)
  decide

theorem content_pages_sign_in_tsx_residual : hasResidualKnownPh content_pages_sign_in_tsx = false := by decide

theorem content_pages_sign_up_tsx_residual : hasResidualKnownPh content_pages_sign_up_tsx = false := by decide

theorem content_public_shared_hero_jpg_residual : hasResidualKnownPh content_public_shared_hero_jpg = false := by decide

theorem content_styles_globals_css_residual : hasResidualKnownPh content_styles_globals_css = false := by decide

theorem content_supabase_init_sql_residual : hasResidualKnownPh content_supabase_init_sql = false := by decide

theorem content_README_md_v2_residual (name : String)
    (hname : hasResidualKnownPh name = false) :
    hasResidualKnownPh (content_README_md_v2 name) = false :=
  hasResidualKnownPh_splice3 _ _ (by decide) (by decide) (by decide) (by decide)
    name hname

theorem content__env_local_residual (name : String)
    (hname : hasResidualKnownPh name = false) :
    hasResidualKnownPh (content__env_local name) = false :=
  hasResidualKnownPh_splice3 _ _ (by decide) (by decide) (by decide) (by decide)
    name hname

theorem content__env_production_residual (name : String)
    (hname : hasResidualKnownPh name = false) :
    hasResidualKnownPh (content__env_production name) = false :=
  hasResidualKnownPh_splice3 _ _ (by decide) (by decide) (by decide) (by decide)
    name hname

theorem content__env_staging_residual (name : String)
    (hname : hasResidualKnownPh name = false) :
    hasResidualKnownPh (content__env_staging name) = false :=
  hasResidualKnownPh_splice3 _ _ (by decide) (by decide) (by decide) (by decide)
    name hname

theorem treeEntries_eq (name : String) :
    treeEntries name =
  [ ("package.json", pkgJsonContent name),
    ("README.md", content_README_md name),
    ("netlify.toml", content_netlify_toml),
    (".gitignore", content__gitignore),
    (".env.staging", content__env_staging name),
    (".env.production", content__env_production name),
    (".env.local", content__env_local name),
    ("supabase/init.sql", content_supabase_init_sql),
    ("lib/supabaseClient.ts", content_lib_supabaseClient_ts),
    ("lib/safeClerk.tsx", content_lib_safeClerk_tsx),
    ("pages/api/signups/add.ts", content_pages_api_signups_add_ts),
    ("next.config.js", content_next_config_js),
    ("pages/_app.tsx", content_pages_app_tsx),
    ("lib/analytics.ts", content_lib_analytics_ts),
    ("lib/ads.ts", content_lib_ads_ts),
    ("styles/globals.css", content_styles_globals_css),
    ("pages/index.tsx", content_pages_index_tsx),
    ("pages/sign-in.tsx", content_pages_sign_in_tsx),
    ("pages/sign-up.tsx", content_pages_sign_up_tsx),
    ("pages/dashboard.tsx", content_pages_dashboard_tsx),
    ("pages/api/events/track.ts", content_pages_api_events_track_ts),
    ("pages/api/stripe/create-checkout.ts", content_pages_api_stripe_create_checkout_ts),
    ("pages/api/stripe/webhook.ts", content_pages_api_stripe_webhook_ts),
    ("pages/api/health.ts", content_pages_api_health_ts),
    ("pages/blog/index.tsx", content_pages_blog_index_tsx),
    ("public/shared-hero.jpg", content_public_shared_hero_jpg),
    ("pages/founder.tsx", content_pages_founder_tsx),
    (".github/workflows/deploy.yml", content__github_workflows_deploy_yml),
    ("README.md", content_README_md_v2 name),
    ("drip/sequence.json", content_drip_sequence_json),
    ("outreach/templates/email.txt", content_outreach_templates_email_txt),
    ("outreach/templates/twitter-dm.txt", content_outreach_templates_twitter_dm_txt),
    ("components/FeedbackModal.tsx", content_components_FeedbackModal_tsx),
    ("marketing/launch/twitter-thread.txt", content_marketing_launch_twitter_thread_txt),
    ("marketing/launch/product-hunt.txt", content_marketing_launch_product_hunt_txt),
    ("marketing/launch/indiehackers.txt", content_marketing_launch_indiehackers_txt) ] := rfl

/-- **C1 (amended).** For every configuration whose project name carries
no residual `\x7b\x7bv\x7d\x7d` token for a known variable `v`, and every
target directory that does not exist beforehand, `createScaffold`
completes (no `process.exit`), every relative path declared in the
Project Tree Definition exists as a file under the target directory, and
the final content of every such file contains no residual placeholder
token for a known variable.  (The unamended claim fails when the project
name itself carries such a token — see the counterexample; the marketing
and outreach templates do keep tokens such as `\x7b\x7bapp_name\x7d\x7d`,
but none of their identifiers is a known configuration variable.) -/
theorem C1_tree_materialized (fs : Fs) (d : Path) (name : String)
    (hd : fs.existsPath d = false) (hname : hasResidualKnownPh name = false) :
    (createScaffold fs d name).2 = none ∧
    ∀ e ∈ treeEntries name, ∃ c,
      ((createScaffold fs d name).1).lookupFile (d ++ relSegs e.1) = some c ∧
      hasResidualKnownPh c = false := by
  have hscaf : createScaffold fs d name
      = ((script name).foldl (applyAct d) (fs.mkdirRec d), none) := by
    unfold createScaffold
    simp [hd]
  refine ⟨by rw [hscaf], ?_⟩
  intro e he
  rw [hscaf]
  rw [treeEntries_eq] at he
  simp only [List.mem_cons, List.not_mem_nil, or_false] at he
  rcases he with rfl | rfl | rfl | rfl | rfl | rfl | rfl | rfl | rfl | rfl | rfl | rfl | rfl | rfl | rfl | rfl | rfl | rfl | rfl | rfl | rfl | rfl | rfl | rfl | rfl | rfl | rfl | rfl | rfl | rfl | rfl | rfl | rfl | rfl | rfl | rfl
  · exact ⟨_, by rw [lookupFile_foldActs]; rfl, pkgJsonContent_residual hname⟩
  · exact ⟨_, by rw [lookupFile_foldActs]; rfl, content_README_md_v2_residual name hname⟩
  · exact ⟨_, by rw [lookupFile_foldActs]; rfl, content_netlify_toml_residual⟩
  · exact ⟨_, by rw [lookupFile_foldActs]; rfl, content__gitignore_residual⟩
  · exact ⟨_, by rw [lookupFile_foldActs]; rfl, content__env_staging_residual name hname⟩
  · exact ⟨_, by rw [lookupFile_foldActs]; rfl, content__env_production_residual name hname⟩
  · exact ⟨_, by rw [lookupFile_foldActs]; rfl, content__env_local_residual name hname⟩
  · exact ⟨_, by rw [lookupFile_foldActs]; rfl, content_supabase_init_sql_residual⟩
  · exact ⟨_, by rw [lookupFile_foldActs]; rfl, content_lib_supabaseClient_ts_residual⟩
  · exact ⟨_, by rw [lookupFile_foldActs]; rfl, content_lib_safeClerk_tsx_residual⟩
  · exact ⟨_, by rw [lookupFile_foldActs]; rfl, content_pages_api_signups_add_ts_residual⟩
  · exact ⟨_, by rw [lookupFile_foldActs]; rfl, content_next_config_js_residual⟩
  · exact ⟨_, by rw [lookupFile_foldActs]; rfl, content_pages_app_tsx_residual⟩
  · exact ⟨_, by rw [lookupFile_foldActs]; rfl, content_lib_analytics_ts_residual⟩
  · exact ⟨_, by rw [lookupFile_foldActs]; rfl, content_lib_ads_ts_residual⟩
  · exact ⟨_, by rw [lookupFile_foldActs]; rfl, content_styles_globals_css_residual⟩
  · exact ⟨_, by rw [lookupFile_foldActs]; rfl, content_pages_index_tsx_residual⟩
  · exact ⟨_, by rw [lookupFile_foldActs]; rfl, content_pages_sign_in_tsx_residual⟩
  · exact ⟨_, by rw [lookupFile_foldActs]; rfl, content_pages_sign_up_tsx_residual⟩
  · exact ⟨_, by rw [lookupFile_foldActs]; rfl, content_pages_dashboard_tsx_residual⟩
  · exact ⟨_, by rw [lookupFile_foldActs]; rfl, content_pages_api_events_track_ts_residual⟩
  · exact ⟨_, by rw [lookupFile_foldActs]; rfl, content_pages_api_stripe_create_checkout_ts_residual⟩
  · exact ⟨_, by rw [lookupFile_foldActs]; rfl, content_pages_api_stripe_webhook_ts_residual⟩
  · exact ⟨_, by rw [lookupFile_foldActs]; rfl, content_pages_api_health_ts_residual⟩
  · exact ⟨_, by rw [lookupFile_foldActs]; rfl, content_pages_blog_index_tsx_residual⟩
  · exact ⟨_, by rw [lookupFile_foldActs]; rfl, content_public_shared_hero_jpg_residual⟩
  · exact ⟨_, by rw [lookupFile_foldActs]; rfl, content_pages_founder_tsx_residual⟩
  · exact ⟨_, by rw [lookupFile_foldActs]; rfl, content__github_workflows_deploy_yml_residual⟩
  · exact ⟨_, by rw [lookupFile_foldActs]; rfl, content_README_md_v2_residual name hname⟩
  · exact ⟨_, by rw [lookupFile_foldActs]; rfl, content_drip_sequence_json_residual⟩
  · exact ⟨_, by rw [lookupFile_foldActs]; rfl, content_outreach_templates_email_txt_residual⟩
  · exact ⟨_, by rw [lookupFile_foldActs]; rfl, content_outreach_templates_twitter_dm_txt_residual⟩
  · exact ⟨_, by rw [lookupFile_foldActs]; rfl, content_components_FeedbackModal_tsx_residual⟩
  · exact ⟨_, by rw [lookupFile_foldActs]; rfl, content_marketing_launch_twitter_thread_txt_residual⟩
  · exact ⟨_, by rw [lookupFile_foldActs]; rfl, content_marketing_launch_product_hunt_txt_residual⟩
  · exact ⟨_, by rw [lookupFile_foldActs]; rfl, content_marketing_launch_indiehackers_txt_residual⟩

/-! ## The `apply` command (non-interactive branch) -/

structure CliResult where
  fs : Fs
  exit : Nat
  logs : List String

/-- `autoInstall(dir)`: logs the start, runs `npm install`, and catches a
failure, logging it instead of rethrowing.  The external process outcome
is the parameter `ok`. -/
def autoInstallLogs (ok : Bool) : List String :=
  if ok then ["Running npm install in", "npm install finished"]
  else ["Running npm install in", "npm install failed"]

/-- The `apply` action with `--name` given: resolve the directory
(`opts.dir || path.join(process.cwd(), slugify(opts.name))`), run
`createScaffold`, optionally run the install step (whose failure is
caught), and print the completion message.  Normal termination exits 0. -/
def applyCli (fs : Fs) (cwd : Path) (name : String) (dirOpt : Option Path)
    (install : Bool) (installOk : Bool) : CliResult :=
  match createScaffold fs (dirOpt.getD (cwd ++ relSegs (slugify name))) name with
  | (fs', some code) => ⟨fs', code, []⟩
  | (fs', none) =>
    ⟨fs', 0, (if install then autoInstallLogs installOk else []) ++ ["Scaffold complete"]⟩

/-- **C8.** With the auto-install flag set and a fresh target directory,
a failure of the dependency-install step is caught and logged
(`npm install failed`), the `apply` command still completes with exit
status 0, and the generated tree is exactly the one `createScaffold`
wrote — no rollback or deletion. -/
theorem C8_install_failure (fs : Fs) (cwd : Path) (name : String) (dirOpt : Option Path)
    (hd : fs.existsPath (dirOpt.getD (cwd ++ relSegs (slugify name))) = false) :
    (applyCli fs cwd name dirOpt true false).exit = 0 ∧
    (applyCli fs cwd name dirOpt true false).fs
      = (createScaffold fs (dirOpt.getD (cwd ++ relSegs (slugify name))) name).1 ∧
    "npm install failed" ∈ (applyCli fs cwd name dirOpt true false).logs := by
  have hscaf : createScaffold fs (dirOpt.getD (cwd ++ relSegs (slugify name))) name
      = ((script name).foldl (applyAct (dirOpt.getD (cwd ++ relSegs (slugify name))))
          (fs.mkdirRec (dirOpt.getD (cwd ++ relSegs (slugify name)))), none) := by
    unfold createScaffold
    simp [hd]
  unfold applyCli
  rw [hscaf]
  refine ⟨rfl, rfl, ?_⟩
  simp [autoInstallLogs]

/-- Witness for C8 at a concrete configuration (empty filesystem). -/
theorem C8_install_failure_witness :
    (applyCli (Fs.mk [] []) ["home"] "x" none true false).exit = 0 ∧
    (applyCli (Fs.mk [] []) ["home"] "x" none true false).fs
      = (createScaffold (Fs.mk [] [])
          ((none : Option Path).getD (["home"] ++ relSegs (slugify "x"))) "x").1 ∧
    "npm install failed" ∈ (applyCli (Fs.mk [] []) ["home"] "x" none true false).logs :=
  C8_install_failure (Fs.mk [] []) ["home"] "x" none (by decide)

/-- **C9.** The generated `package.json` carries a `"name"` field equal
to the configured project name exactly as given (the raw name, not the
slugified form): the object built by `basePackageJson` binds `"name"` to
the raw name for every configuration, and `apply` with a name and no
explicit directory writes `JSON.stringify` of that object to
`<cwd>/<slugify name>/package.json`. -/
theorem C9_package_name (fs : Fs) (cwd : Path) (name : String)
    (hd : fs.existsPath (cwd ++ relSegs (slugify name)) = false) :
    (match basePackageJson name with
     | .obj fields => JFields.lookup fields "name"
     | _ => none) = some (.str name) ∧
    ((applyCli fs cwd name none true true).fs).lookupFile
        ((cwd ++ relSegs (slugify name)) ++ relSegs "package.json")
      = some (pkgJsonContent name) := by
  have hscaf : createScaffold fs (cwd ++ relSegs (slugify name)) name
      = ((script name).foldl (applyAct (cwd ++ relSegs (slugify name)))
          (fs.mkdirRec (cwd ++ relSegs (slugify name))), none) := by
    unfold createScaffold
    simp [hd]
  refine ⟨rfl, ?_⟩
  show ((applyCli fs cwd name none true true).fs).lookupFile
      ((cwd ++ relSegs (slugify name)) ++ relSegs "package.json") = _
  unfold applyCli
  simp only [Option.getD_none]
  rw [hscaf]
  show (List.foldl (applyAct (cwd ++ relSegs (slugify name)))
      (fs.mkdirRec (cwd ++ relSegs (slugify name))) (script name)).lookupFile
      ((cwd ++ relSegs (slugify name)) ++ relSegs "package.json") = _
  rw [lookupFile_foldActs]
  rfl

/-- Witness for C9: `apply` with name `"onboardkit"` and no explicit
directory: `./onboardkit/package.json` holds the stringified object whose
`"name"` field is `"onboardkit"`. -/
theorem C9_package_name_witness :
    (match basePackageJson "onboardkit" with
     | .obj fields => JFields.lookup fields "name"
     | _ => none) = some (.str "onboardkit") ∧
    ((applyCli (Fs.mk [] []) ["home"] "onboardkit" none true true).fs).lookupFile
        ((["home"] ++ relSegs (slugify "onboardkit")) ++ relSegs "package.json")
      = some (pkgJsonContent "onboardkit") :=
  C9_package_name (Fs.mk [] []) ["home"] "onboardkit" (by decide)

/-! ## Filesystem model for `destroy(dir)` / `rmrf`

A node tree with files, symbolic links (whose `lstat` is NOT a
directory), and directories with named children. -/

mutual
inductive FsNode where
  | file : FsNode
  | symlink (target : List String) : FsNode
  | dir (children : FsEntries) : FsNode
deriving DecidableEq
inductive FsEntries where
  | nil : FsEntries
  | cons (name : String) (node : FsNode) (rest : FsEntries) : FsEntries
deriving DecidableEq
end

/-- One filesystem mutation performed by `rmrf`. -/
inductive Op where
  | unlink (p : Path)
  | rmdir (p : Path)
deriving DecidableEq

def opPath : Op → Path
  | .unlink p => p
  | .rmdir p => p

/-- `fs.lstatSync(cur).isDirectory()`: `lstat` does not follow links, so
a symlink is never a directory. -/
def lstatIsDirectory : FsNode → Bool
  | .dir _ => true
  | _ => false

def findEntry : FsEntries → String → Option FsNode
  | .nil, _ => none
  | .cons n v rest, target => if n = target then some v else findEntry rest target

def lookupE : FsEntries → Path → Option FsNode
  | _, [] => none
  | es, [n] => findEntry es n
  | es, n :: rest =>
    match findEntry es n with
    | some (.dir cs) => lookupE cs rest
    | _ => none

def eraseEntry : FsEntries → String → FsEntries
  | .nil, _ => .nil
  | .cons n v rest, target =>
    if n = target then rest else .cons n v (eraseEntry rest target)

def updateEntry : FsEntries → String → FsNode → FsEntries
  | .nil, _, _ => .nil
  | .cons n v rest, target, newv =>
    if n = target then .cons n newv rest else .cons n v (updateEntry rest target newv)

/-- Remove the entry at `p` (no-op when the path is missing). -/
def removeE : FsEntries → Path → FsEntries
  | es, [] => es
  | es, [n] => eraseEntry es n
  | es, n :: rest =>
    match findEntry es n with
    | some (.dir cs) => updateEntry es n (.dir (removeE cs rest))
    | _ => es

/-- Replace the node at `p` (no-op when the path is missing). -/
def setAt : FsEntries → Path → FsNode → FsEntries
  | es, [], _ => es
  | es, [n], v => updateEntry es n v
  | es, n :: rest, v =>
    match findEntry es n with
    | some (.dir cs) => updateEntry es n (.dir (setAt cs rest v))
    | _ => es

def isEmptyDir : FsNode → Bool
  | .dir .nil => true
  | _ => false

/-- Apply one mutation: `unlinkSync` removes a non-directory entry,
`rmdirSync` removes an empty directory; a mutation whose precondition
fails (would throw in `fs`) leaves the tree unchanged. -/
def applyOp (es : FsEntries) : Op → FsEntries
  | .unlink p =>
    match lookupE es p with
    | some n => if lstatIsDirectory n then es else removeE es p
    | none => es
  | .rmdir p =>
    match lookupE es p with
    | some n => if isEmptyDir n then removeE es p else es
    | none => es

mutual
/-- The mutation sequence of `rmrf(p)` on the node found at `p`
(only ever invoked on directories; `readdirSync` on anything else
throws, which `destroyFs` reports as `.error`). -/
def rmrfNode (p : Path) : FsNode → List Op
  | .dir cs => rmrfEntries p cs ++ [Op.rmdir p]
  | _ => []
/-- For each child: recurse when `lstat` says directory, else `unlink`. -/
def rmrfEntries (p : Path) : FsEntries → List Op
  | .nil => []
  | .cons n c rest =>
    (if lstatIsDirectory c then rmrfNode (p ++ [n]) c
     else [Op.unlink (p ++ [n])]) ++ rmrfEntries p rest
end

inductive DestroyResult where
  | notFound | removed | error
deriving DecidableEq

/-- `destroy(dir)`: report a missing target and return; otherwise run
`rmrf(dir)` (crashing with `ENOTDIR` — `.error` — when `dir` is not a
directory).  The resulting tree is the op sequence applied in order. -/
def destroyFs (es : FsEntries) (p : Path) : FsEntries × List Op × DestroyResult :=
  match lookupE es p with
  | none => (es, [], .notFound)
  | some (.dir cs) =>
    ((rmrfNode p (.dir cs)).foldl applyOp es, rmrfNode p (.dir cs), .removed)
  | some _ => (es, [], .error)

def entryNames : FsEntries → List String
  | .nil => []
  | .cons n _ rest => n :: entryNames rest

/-! Well-formedness: the children of every directory have distinct
names (as `readdirSync` guarantees on a real filesystem). -/
mutual
def nodeWf : FsNode → Bool
  | .dir cs => entriesWf cs
  | _ => true
def entriesWf : FsEntries → Bool
  | .nil => true
  | .cons n v rest => !(entryNames rest).contains n && nodeWf v && entriesWf rest
end

theorem findEntry_updateEntry : ∀ (es : FsEntries) {n : String} {v₀ : FsNode},
    findEntry es n = some v₀ → ∀ v, findEntry (updateEntry es n v) n = some v
  | .nil, n, v₀, h, v => by simp [findEntry] at h
  | .cons m w rest, n, v₀, h, v => by
    rw [updateEntry]
    split
    next hm => subst hm; simp [findEntry]
    next hm =>
      rw [findEntry] at h ⊢
      rw [if_neg hm] at h ⊢
      exact findEntry_updateEntry rest h v

theorem updateEntry_self : ∀ (es : FsEntries) {n : String} {v : FsNode},
    findEntry es n = some v → updateEntry es n v = es
  | .nil, n, v, h => rfl
  | .cons m w rest, n, v, h => by
    rw [findEntry] at h
    rw [updateEntry]
    split
    next hm =>
      rw [if_pos hm] at h
      obtain rfl : w = v := by injection h
      rfl
    next hm =>
      rw [if_neg hm] at h
      rw [updateEntry_self rest h]

theorem updateEntry_updateEntry : ∀ (es : FsEntries) (n : String) (u v : FsNode),
    updateEntry (updateEntry es n u) n v = updateEntry es n v
  | .nil, n, u, v => rfl
  | .cons m w rest, n, u, v => by
    rw [updateEntry]
    split
    next hm => subst hm; simp [updateEntry]
    next hm => simp [updateEntry, hm, updateEntry_updateEntry rest]

theorem eraseEntry_updateEntry : ∀ (es : FsEntries) (n : String) (v : FsNode),
    eraseEntry (updateEntry es n v) n = eraseEntry es n
  | .nil, n, v => rfl
  | .cons m w rest, n, v => by
    rw [updateEntry]
    split
    next hm => subst hm; simp [eraseEntry]
    next hm => simp [eraseEntry, hm, eraseEntry_updateEntry rest]

theorem lookupE_cons_ne_nil {es : FsEntries} {n : String} {rest : Path} (h : rest ≠ []) :
    lookupE es (n :: rest) =
      match findEntry es n with
      | some (.dir cs) => lookupE cs rest
      | _ => none := by
  match rest with
  | [] => exact absurd rfl h
  | x :: r => rfl

theorem lookup_child {p : Path} :
    ∀ {es cs : FsEntries}, lookupE es p = some (.dir cs) →
      ∀ n, lookupE es (p ++ [n]) = findEntry cs n := by
  induction p with
  | nil => intro es cs h n; simp [lookupE] at h
  | cons m p' ih =>
    intro es cs h n
    match hp' : p' with
    | [] =>
      rw [lookupE] at h
      rw [show ([m] ++ [n]) = m :: [n] from rfl, lookupE_cons_ne_nil (by simp), h]
      rfl
    | x :: r =>
      rw [lookupE_cons_ne_nil (by simp)] at h
      rw [show ((m :: x :: r) ++ [n]) = m :: ((x :: r) ++ [n]) from rfl,
        lookupE_cons_ne_nil (by simp)]
      cases hf : findEntry es m with
      | none => rw [hf] at h; simp at h
      | some v =>
        cases v with
        | dir cs₀ =>
          rw [hf] at h
          simp only at h
          simp only [hf]
          exact ih h n
        | file => rw [hf] at h; simp at h
        | symlink t => rw [hf] at h; simp at h

theorem lookup_setAt {p : Path} :
    ∀ {es : FsEntries} {v₀ : FsNode}, lookupE es p = some v₀ →
      ∀ v, lookupE (setAt es p v) p = some v := by
  induction p with
  | nil => intro es v₀ h v; simp [lookupE] at h
  | cons m p' ih =>
    intro es v₀ h v
    match hp' : p' with
    | [] =>
      rw [lookupE] at h
      rw [setAt, lookupE]
      exact findEntry_updateEntry es h v
    | x :: r =>
      rw [lookupE_cons_ne_nil (by simp)] at h
      rw [show setAt es (m :: x :: r) v =
        (match findEntry es m with
         | some (.dir cs) => updateEntry es m (.dir (setAt cs (x :: r) v))
         | _ => es) from rfl]
      cases hf : findEntry es m with
      | none => rw [hf] at h; simp at h
      | some w =>
        cases w with
        | dir cs₀ =>
          rw [hf] at h
          simp only at h
          simp only [hf]
          rw [lookupE_cons_ne_nil (by simp),
            findEntry_updateEntry es hf (.dir (setAt cs₀ (x :: r) v))]
          exact ih h v
        | file => rw [hf] at h; simp at h
        | symlink t => rw [hf] at h; simp at h

theorem setAt_self {p : Path} :
    ∀ {es : FsEntries} {v : FsNode}, lookupE es p = some v → setAt es p v = es := by
  induction p with
  | nil => intro es v h; simp [lookupE] at h
  | cons m p' ih =>
    intro es v h
    match hp' : p' with
    | [] =>
      rw [lookupE] at h
      rw [setAt]
      exact updateEntry_self es h
    | x :: r =>
      rw [lookupE_cons_ne_nil (by simp)] at h
      rw [show setAt es (m :: x :: r) v =
        (match findEntry es m with
         | some (.dir cs) => updateEntry es m (.dir (setAt cs (x :: r) v))
         | _ => es) from rfl]
      cases hf : findEntry es m with
      | none => rw [hf] at h; all_goals simp at h
      | some w =>
        cases w with
        | dir cs₀ =>
          rw [hf] at h
          simp only at h
          simp only [hf]
          rw [ih h]
          exact updateEntry_self es hf
        | file => rw [hf] at h; all_goals simp at h
        | symlink t => rw [hf] at h; all_goals simp at h


theorem remove_child {p : Path} :
    ∀ {es cs : FsEntries}, lookupE es p = some (.dir cs) →
      ∀ n, removeE es (p ++ [n]) = setAt es p (.dir (eraseEntry cs n)) := by
  induction p with
  | nil => intro es cs h n; simp [lookupE] at h
  | cons m p' ih =>
    intro es cs h n
    match hp' : p' with
    | [] =>
      rw [lookupE] at h
      rw [show ([m] ++ [n]) = m :: [n] from rfl]
      rw [show removeE es (m :: [n]) =
        (match findEntry es m with
         | some (.dir cs) => updateEntry es m (.dir (removeE cs [n]))
         | _ => es) from rfl]
      simp only [h]
      rfl
    | x :: r =>
      rw [lookupE_cons_ne_nil (by simp)] at h
      rw [show ((m :: x :: r) ++ [n]) = m :: ((x :: r) ++ [n]) from rfl]
      rw [show removeE es (m :: ((x :: r) ++ [n])) =
        (match findEntry es m with
         | some (.dir cs) => updateEntry es m (.dir (removeE cs ((x :: r) ++ [n])))
         | _ => es) from rfl]
      rw [show setAt es (m :: x :: r) (.dir (eraseEntry cs n)) =
        (match findEntry es m with
         | some (.dir cs₁) =>
            updateEntry es m (.dir (setAt cs₁ (x :: r) (.dir (eraseEntry cs n))))
         | _ => es) from rfl]
      cases hf : findEntry es m with
      | none => rw [hf] at h; all_goals simp at h
      | some w =>
        cases w with
        | dir cs₀ =>
          rw [hf] at h
          simp only at h
          simp only [hf]
          rw [ih h n]
        | file => rw [hf] at h; all_goals simp at h
        | symlink t => rw [hf] at h; all_goals simp at h

theorem removeE_setAt {p : Path} :
    ∀ {es : FsEntries} {v₀ : FsNode}, lookupE es p = some v₀ →
      ∀ v, removeE (setAt es p v) p = removeE es p := by
  induction p with
  | nil => intro es v₀ h v; simp [lookupE] at h
  | cons m p' ih =>
    intro es v₀ h v
    match hp' : p' with
    | [] =>
      rw [lookupE] at h
      show eraseEntry (updateEntry es m v) m = eraseEntry es m
      exact eraseEntry_updateEntry es m v
    | x :: r =>
      rw [lookupE_cons_ne_nil (by simp)] at h
      rw [show setAt es (m :: x :: r) v =
        (match findEntry es m with
         | some (.dir cs) => updateEntry es m (.dir (setAt cs (x :: r) v))
         | _ => es) from rfl]
      rw [show removeE es (m :: x :: r) =
        (match findEntry es m with
         | some (.dir cs) => updateEntry es m (.dir (removeE cs (x :: r)))
         | _ => es) from rfl]
      cases hf : findEntry es m with
      | none => rw [hf] at h; all_goals simp at h
      | some w =>
        cases w with
        | dir cs₀ =>
          rw [hf] at h
          simp only at h
          simp only [hf]
          rw [show removeE (updateEntry es m (.dir (setAt cs₀ (x :: r) v))) (m :: x :: r) =
            (match findEntry (updateEntry es m (.dir (setAt cs₀ (x :: r) v))) m with
             | some (.dir cs) =>
                updateEntry (updateEntry es m (.dir (setAt cs₀ (x :: r) v))) m
                  (.dir (removeE cs (x :: r)))
             | _ => updateEntry es m (.dir (setAt cs₀ (x :: r) v))) from rfl]
          simp only [findEntry_updateEntry es hf (.dir (setAt cs₀ (x :: r) v))]
          rw [ih h v, updateEntry_updateEntry]
        | file => rw [hf] at h; all_goals simp at h
        | symlink t => rw [hf] at h; all_goals simp at h

theorem setAt_setAt {p : Path} :
    ∀ {es : FsEntries} {v₀ : FsNode}, lookupE es p = some v₀ →
      ∀ u v, setAt (setAt es p u) p v = setAt es p v := by
  induction p with
  | nil => intro es v₀ h u v; simp [lookupE] at h
  | cons m p' ih =>
    intro es v₀ h u v
    match hp' : p' with
    | [] =>
      rw [lookupE] at h
      show updateEntry (updateEntry es m u) m v = updateEntry es m v
      exact updateEntry_updateEntry es m u v
    | x :: r =>
      rw [lookupE_cons_ne_nil (by simp)] at h
      rw [show setAt es (m :: x :: r) u =
        (match findEntry es m with
         | some (.dir cs) => updateEntry es m (.dir (setAt cs (x :: r) u))
         | _ => es) from rfl]
      rw [show setAt es (m :: x :: r) v =
        (match findEntry es m with
         | some (.dir cs) => updateEntry es m (.dir (setAt cs (x :: r) v))
         | _ => es) from rfl]
      cases hf : findEntry es m with
      | none => rw [hf] at h; all_goals simp at h
      | some w =>
        cases w with
        | dir cs₀ =>
          rw [hf] at h
          simp only at h
          simp only [hf]
          rw [show setAt (updateEntry es m (.dir (setAt cs₀ (x :: r) u))) (m :: x :: r) v =
            (match findEntry (updateEntry es m (.dir (setAt cs₀ (x :: r) u))) m with
             | some (.dir cs) =>
                updateEntry (updateEntry es m (.dir (setAt cs₀ (x :: r) u))) m
                  (.dir (setAt cs (x :: r) v))
             | _ => updateEntry es m (.dir (setAt cs₀ (x :: r) u))) from rfl]
          simp only [findEntry_updateEntry es hf (.dir (setAt cs₀ (x :: r) u))]
          rw [ih h u v, updateEntry_updateEntry]
        | file => rw [hf] at h; all_goals simp at h
        | symlink t => rw [hf] at h; all_goals simp at h

/-! The central destroy computation: applying the op trace of `rmrf p` to a
tree in which `p` is a directory removes exactly the subtree at `p`. -/

mutual
theorem foldl_rmrfNode (cs : FsEntries) : ∀ {es : FsEntries} {p : Path},
    lookupE es p = some (.dir cs) →
    (rmrfNode p (.dir cs)).foldl applyOp es = removeE es p := by
  intro es p h
  rw [show rmrfNode p (.dir cs) = rmrfEntries p cs ++ [Op.rmdir p] from rfl]
  rw [List.foldl_append]
  rw [foldl_rmrfEntries cs h]
  show applyOp (setAt es p (FsNode.dir .nil)) (.rmdir p) = removeE es p
  rw [show applyOp (setAt es p (FsNode.dir .nil)) (.rmdir p) =
    (match lookupE (setAt es p (FsNode.dir .nil)) p with
     | some n => if isEmptyDir n then removeE (setAt es p (FsNode.dir .nil)) p
                 else setAt es p (FsNode.dir .nil)
     | none => setAt es p (FsNode.dir .nil)) from rfl]
  simp only [lookup_setAt h]
  rw [if_pos (show isEmptyDir (FsNode.dir .nil) = true from rfl)]
  exact removeE_setAt h (FsNode.dir .nil)
termination_by (sizeOf cs, 1)

theorem foldl_rmrfEntries (cs : FsEntries) : ∀ {es : FsEntries} {p : Path},
    lookupE es p = some (.dir cs) →
    (rmrfEntries p cs).foldl applyOp es = setAt es p (.dir .nil) := by
  cases cs with
  | nil =>
    intro es p h
    rw [show rmrfEntries p .nil = [] from rfl]
    show es = setAt es p (.dir .nil)
    exact (setAt_self h).symm
  | cons n c rest =>
    intro es p h
    rw [show rmrfEntries p (.cons n c rest) =
      (if lstatIsDirectory c then rmrfNode (p ++ [n]) c
       else [Op.unlink (p ++ [n])]) ++ rmrfEntries p rest from rfl]
    rw [List.foldl_append]
    have hchild : lookupE es (p ++ [n]) = some c := by
      rw [lookup_child h n]; simp [findEntry]
    have hstep : (if lstatIsDirectory c then rmrfNode (p ++ [n]) c
        else [Op.unlink (p ++ [n])]).foldl applyOp es = setAt es p (.dir rest) := by
      cases c with
      | dir ccs =>
        rw [if_pos (show lstatIsDirectory (FsNode.dir ccs) = true from rfl)]
        rw [foldl_rmrfNode ccs hchild]
        rw [remove_child h n]
        rw [show eraseEntry (.cons n (FsNode.dir ccs) rest) n = rest by
          simp [eraseEntry]]
      | file =>
        rw [if_neg (by simp [lstatIsDirectory])]
        show applyOp es (.unlink (p ++ [n])) = setAt es p (.dir rest)
        rw [show applyOp es (.unlink (p ++ [n])) =
          (match lookupE es (p ++ [n]) with
           | some v => if lstatIsDirectory v then es else removeE es (p ++ [n])
           | none => es) from rfl]
        simp only [hchild]
        rw [if_neg (by simp [lstatIsDirectory])]
        rw [remove_child h n]
        rw [show eraseEntry (.cons n FsNode.file rest) n = rest by
          simp [eraseEntry]]
      | symlink t =>
        rw [if_neg (by simp [lstatIsDirectory])]
        show applyOp es (.unlink (p ++ [n])) = setAt es p (.dir rest)
        rw [show applyOp es (.unlink (p ++ [n])) =
          (match lookupE es (p ++ [n]) with
           | some v => if lstatIsDirectory v then es else removeE es (p ++ [n])
           | none => es) from rfl]
        simp only [hchild]
        rw [if_neg (by simp [lstatIsDirectory])]
        rw [remove_child h n]
        rw [show eraseEntry (.cons n (FsNode.symlink t) rest) n = rest by
          simp [eraseEntry]]
    rw [hstep]
    rw [foldl_rmrfEntries rest (lookup_setAt h (FsNode.dir rest))]
    exact setAt_setAt h (FsNode.dir rest) (FsNode.dir .nil)
termination_by (sizeOf cs, 0)
end

/-! Trace shape: every op emitted by `rmrf` lies under the root it was
invoked on, and ops from a directory's children start with a child name. -/

theorem prefix_cancel : ∀ (p a b : Path), (p ++ a) <+: (p ++ b) → a <+: b
  | [], _, _, h => h
  | x :: p', a, b, h => by
    rw [List.cons_append, List.cons_append, List.cons_prefix_cons] at h
    exact prefix_cancel p' a b h.2

mutual
theorem rmrfNode_prefix (v : FsNode) : ∀ (p : Path) (op : Op),
    op ∈ rmrfNode p v → p <+: opPath op := by
  cases v with
  | dir cs =>
    intro p op hop
    rw [show rmrfNode p (.dir cs) = rmrfEntries p cs ++ [Op.rmdir p] from rfl,
      List.mem_append] at hop
    rcases hop with hop | hop
    · obtain ⟨n, s, hshape, -⟩ := rmrfEntries_shape cs p op hop
      rw [hshape]
      exact ⟨n :: s, rfl⟩
    · simp at hop
      rw [hop]
      exact List.prefix_rfl
  | file =>
    intro p op hop
    rw [show rmrfNode p .file = [] from rfl] at hop
    simp at hop
  | symlink t =>
    intro p op hop
    rw [show rmrfNode p (.symlink t) = [] from rfl] at hop
    simp at hop
termination_by (sizeOf v, 1)

theorem rmrfEntries_shape (cs : FsEntries) : ∀ (p : Path) (op : Op),
    op ∈ rmrfEntries p cs →
    ∃ n s, opPath op = p ++ n :: s ∧ n ∈ entryNames cs := by
  cases cs with
  | nil =>
    intro p op hop
    rw [show rmrfEntries p .nil = [] from rfl] at hop
    simp at hop
  | cons n c rest =>
    intro p op hop
    rw [show rmrfEntries p (.cons n c rest) =
      (if lstatIsDirectory c then rmrfNode (p ++ [n]) c
       else [Op.unlink (p ++ [n])]) ++ rmrfEntries p rest from rfl,
      List.mem_append] at hop
    rcases hop with hop | hop
    · by_cases hd : lstatIsDirectory c = true
      · rw [if_pos hd] at hop
        obtain ⟨s, hs⟩ := rmrfNode_prefix c (p ++ [n]) op hop
        refine ⟨n, s, ?_, ?_⟩
        · rw [← hs, List.append_assoc]; rfl
        · rw [show entryNames (.cons n c rest) = n :: entryNames rest from rfl]
          exact List.mem_cons_self n _
      · rw [if_neg hd] at hop
        simp at hop
        refine ⟨n, [], ?_, ?_⟩
        · rw [hop]; rfl
        · rw [show entryNames (.cons n c rest) = n :: entryNames rest from rfl]
          exact List.mem_cons_self n _
    · obtain ⟨m, s, hshape, hmem⟩ := rmrfEntries_shape rest p op hop
      refine ⟨m, s, hshape, ?_⟩
      rw [show entryNames (.cons n c rest) = n :: entryNames rest from rfl]
      exact List.mem_cons_of_mem n hmem
termination_by (sizeOf cs, 0)
end

/-! Bottom-up order: once `rmdir q` has been emitted, no later op in the
trace touches a path strictly inside `q`. -/

def bottomUp (t : List Op) : Prop :=
  ∀ t₁ q t₂, t = t₁ ++ Op.rmdir q :: t₂ → ∀ op ∈ t₂, ¬ strictlyInside q (opPath op)

theorem bottomUp_nil : bottomUp [] := by
  intro t₁ q t₂ h
  exact absurd h (by simp)

theorem bottomUp_singleton (o : Op) : bottomUp [o] := by
  intro t₁ q t₂ h op hop
  cases t₁ with
  | nil =>
    rw [List.nil_append] at h
    injection h with h1 h2
    rw [← h2] at hop
    simp at hop
  | cons a t₁' =>
    rw [List.cons_append] at h
    injection h with h1 h2
    exact absurd h2.symm (by simp)

theorem bottomUp_append {A B : List Op}
    (hA : bottomUp A) (hB : bottomUp B)
    (hcross : ∀ q, Op.rmdir q ∈ A → ∀ op ∈ B, ¬ strictlyInside q (opPath op)) :
    bottomUp (A ++ B) := by
  intro t₁ q t₂ h op hop
  rw [List.append_eq_append_iff] at h
  rcases h with ⟨a', ht₁, hB'⟩ | ⟨c', hA', hB'⟩
  · exact hB a' q t₂ hB' op hop
  · cases c' with
    | nil =>
      rw [List.nil_append] at hB'
      exact hB [] q t₂ (by rw [List.nil_append]; exact hB'.symm) op hop
    | cons o c'' =>
      rw [List.cons_append] at hB'
      injection hB' with h1 h2
      rw [h2, List.mem_append] at hop
      rcases hop with hop | hop
      · exact hA t₁ q c'' (by rw [hA', ← h1]) op hop
      · exact hcross q (by rw [hA', ← h1]; exact List.mem_append_right t₁ (List.mem_cons_self _ _)) op hop

theorem not_inside_short {p q : Path} (h : p.length < q.length) :
    ¬ strictlyInside q p := by
  rintro ⟨r, -, hpr⟩
  rw [hpr, List.length_append] at h
  omega

theorem not_inside_of_head_ne {p : Path} {n m : String} {s' s : List String}
    (hnm : n ≠ m) : ¬ strictlyInside (p ++ n :: s') (p ++ m :: s) := by
  rintro ⟨r, -, heq⟩
  rw [List.append_assoc, List.cons_append] at heq
  have h2 := List.append_cancel_left heq
  injection h2 with h3 _
  exact hnm h3.symm

theorem entriesWf_cons {n : String} {c : FsNode} {rest : FsEntries}
    (h : entriesWf (.cons n c rest) = true) :
    (entryNames rest).contains n = false ∧ nodeWf c = true ∧ entriesWf rest = true := by
  rw [show entriesWf (.cons n c rest) =
    (!(entryNames rest).contains n && nodeWf c && entriesWf rest) from rfl] at h
  simp only [Bool.and_eq_true, Bool.not_eq_true'] at h
  exact ⟨h.1.1, h.1.2, h.2⟩

theorem contains_false_not_mem {l : List String} {n : String}
    (h : l.contains n = false) : n ∉ l := by
  intro hm
  have h1 : List.elem n l = true := List.elem_iff.mpr hm
  have h2 : List.elem n l = false := h
  rw [h1] at h2
  exact Bool.noConfusion h2

mutual
theorem bottomUp_rmrfNode (v : FsNode) : nodeWf v = true →
    ∀ p, bottomUp (rmrfNode p v) := by
  cases v with
  | dir cs =>
    intro hwf p
    rw [show rmrfNode p (.dir cs) = rmrfEntries p cs ++ [Op.rmdir p] from rfl]
    refine bottomUp_append (bottomUp_rmrfEntries cs hwf p) (bottomUp_singleton _) ?_
    intro q hq op hop
    simp at hop
    rw [hop]
    obtain ⟨m, s, hshape, -⟩ := rmrfEntries_shape cs p (Op.rmdir q) hq
    refine not_inside_short ?_
    rw [show opPath (Op.rmdir q) = q from rfl] at hshape
    rw [show opPath (Op.rmdir p) = p from rfl, hshape, List.length_append,
      List.length_cons]
    omega
  | file =>
    intro _ p
    rw [show rmrfNode p .file = [] from rfl]
    exact bottomUp_nil
  | symlink t =>
    intro _ p
    rw [show rmrfNode p (.symlink t) = [] from rfl]
    exact bottomUp_nil
termination_by (sizeOf v, 1)

theorem bottomUp_rmrfEntries (cs : FsEntries) : entriesWf cs = true →
    ∀ p, bottomUp (rmrfEntries p cs) := by
  cases cs with
  | nil =>
    intro _ p
    rw [show rmrfEntries p .nil = [] from rfl]
    exact bottomUp_nil
  | cons n c rest =>
    intro hwf p
    obtain ⟨hn, hc, hrest⟩ := entriesWf_cons hwf
    rw [show rmrfEntries p (.cons n c rest) =
      (if lstatIsDirectory c then rmrfNode (p ++ [n]) c
       else [Op.unlink (p ++ [n])]) ++ rmrfEntries p rest from rfl]
    refine bottomUp_append ?_ (bottomUp_rmrfEntries rest hrest p) ?_
    · cases hd : lstatIsDirectory c with
      | false => rw [if_neg (by simp)]; exact bottomUp_singleton _
      | true => rw [if_pos (rfl : true = true)]; exact bottomUp_rmrfNode c hc (p ++ [n])
    · intro q hq op hop
      have hqpre : (p ++ [n]) <+: q := by
        cases hd : lstatIsDirectory c with
        | false =>
          rw [if_neg (by simp [hd])] at hq
          simp at hq
        | true =>
          rw [if_pos hd] at hq
          exact rmrfNode_prefix c (p ++ [n]) (Op.rmdir q) hq
      obtain ⟨s₂, hs₂⟩ := hqpre
      obtain ⟨m, s, hshape, hmem⟩ := rmrfEntries_shape rest p op hop
      have hnm : n ≠ m := fun he => contains_false_not_mem hn (he ▸ hmem)
      rw [hshape, ← hs₂, List.append_assoc,
        show ([n] ++ s₂ : List String) = n :: s₂ from rfl]
      exact not_inside_of_head_ne hnm
termination_by (sizeOf cs, 0)
end

/-! Lookups after removal: under well-formedness (distinct sibling names,
as `readdirSync` guarantees), removing the subtree at `p` makes `p` and
everything below it absent, while existence outside `p` is untouched. -/

theorem findEntry_none_of_not_mem : ∀ {es : FsEntries} {n : String},
    n ∉ entryNames es → findEntry es n = none
  | .nil, _, _ => rfl
  | .cons m v rest, n, h => by
    rw [show entryNames (.cons m v rest) = m :: entryNames rest from rfl] at h
    rw [show findEntry (.cons m v rest) n =
      (if m = n then some v else findEntry rest n) from rfl]
    rw [if_neg (fun he => h (by rw [he]; exact List.mem_cons_self n _))]
    exact findEntry_none_of_not_mem (fun hm => h (List.mem_cons_of_mem m hm))

theorem findEntry_erase_self : ∀ {es : FsEntries} {n : String},
    entriesWf es = true → findEntry (eraseEntry es n) n = none
  | .nil, _, _ => rfl
  | .cons m v rest, n, h => by
    obtain ⟨hm, -, hrest⟩ := entriesWf_cons h
    rw [show eraseEntry (.cons m v rest) n =
      (if m = n then rest else .cons m v (eraseEntry rest n)) from rfl]
    by_cases hmn : m = n
    · rw [if_pos hmn]
      subst hmn
      exact findEntry_none_of_not_mem (contains_false_not_mem hm)
    · rw [if_neg hmn]
      rw [show findEntry (.cons m v (eraseEntry rest n)) n =
        (if m = n then some v else findEntry (eraseEntry rest n) n) from rfl]
      rw [if_neg hmn]
      exact findEntry_erase_self hrest

theorem findEntry_wf : ∀ {es : FsEntries} {n : String} {v : FsNode},
    entriesWf es = true → findEntry es n = some v → nodeWf v = true
  | .nil, n, v, _, hf => by simp [findEntry] at hf
  | .cons m w rest, n, v, h, hf => by
    obtain ⟨-, hw, hrest⟩ := entriesWf_cons h
    rw [show findEntry (.cons m w rest) n =
      (if m = n then some w else findEntry rest n) from rfl] at hf
    by_cases hmn : m = n
    · rw [if_pos hmn] at hf
      injection hf with hf
      rw [← hf]
      exact hw
    · rw [if_neg hmn] at hf
      exact findEntry_wf hrest hf

theorem lookup_wf {p : Path} : ∀ {es : FsEntries} {v : FsNode},
    entriesWf es = true → lookupE es p = some v → nodeWf v = true := by
  induction p with
  | nil => intro es v _ h; simp [lookupE] at h
  | cons m p' ih =>
    intro es v hwf h
    match hp' : p' with
    | [] => exact findEntry_wf hwf h
    | x :: r =>
      rw [lookupE_cons_ne_nil (by simp)] at h
      cases hf : findEntry es m with
      | none => rw [hf] at h; all_goals simp at h
      | some w =>
        cases w with
        | dir cs₀ =>
          rw [hf] at h
          simp only at h
          exact ih (show entriesWf cs₀ = true from findEntry_wf hwf hf) h
        | file => rw [hf] at h; all_goals simp at h
        | symlink t => rw [hf] at h; all_goals simp at h

theorem lookup_removeE_self {p : Path} : ∀ {es : FsEntries},
    entriesWf es = true → lookupE (removeE es p) p = none := by
  induction p with
  | nil => intro es _; rfl
  | cons m p' ih =>
    intro es hwf
    match hp' : p' with
    | [] =>
      show findEntry (eraseEntry es m) m = none
      exact findEntry_erase_self hwf
    | x :: r =>
      rw [show removeE es (m :: x :: r) =
        (match findEntry es m with
         | some (.dir cs) => updateEntry es m (.dir (removeE cs (x :: r)))
         | _ => es) from rfl]
      cases hf : findEntry es m with
      | none =>
        simp only [hf]
        rw [lookupE_cons_ne_nil (by simp), hf]
      | some w =>
        cases w with
        | dir cs₀ =>
          simp only [hf]
          rw [lookupE_cons_ne_nil (by simp),
            findEntry_updateEntry es hf (.dir (removeE cs₀ (x :: r)))]
          show lookupE (removeE cs₀ (x :: r)) (x :: r) = none
          exact ih (show entriesWf cs₀ = true from findEntry_wf hwf hf)
        | file =>
          simp only [hf]
          rw [lookupE_cons_ne_nil (by simp), hf]
        | symlink t =>
          simp only [hf]
          rw [lookupE_cons_ne_nil (by simp), hf]

theorem lookup_none_extend : ∀ (p : Path) {es : FsEntries}, p ≠ [] →
    lookupE es p = none → ∀ r, lookupE es (p ++ r) = none
  | [], _, hne, _, _ => absurd rfl hne
  | [n], es, _, h, r => by
    have hfe : findEntry es n = none := h
    match r with
    | [] => exact h
    | x :: r' =>
      rw [show ([n] ++ (x :: r')) = n :: x :: r' from rfl]
      rw [lookupE_cons_ne_nil (by simp), hfe]
  | n :: x :: p', es, _, h, r => by
    rw [lookupE_cons_ne_nil (by simp)] at h
    rw [show ((n :: x :: p') ++ r) = n :: ((x :: p') ++ r) from rfl]
    rw [lookupE_cons_ne_nil (by simp)]
    cases hf : findEntry es n with
    | none => rfl
    | some w =>
      cases w with
      | dir cs₀ =>
        rw [hf] at h
        simp only at h
        show lookupE cs₀ ((x :: p') ++ r) = none
        exact lookup_none_extend (x :: p') (by simp) h r
      | file => rfl
      | symlink t => rfl

theorem lookup_append {p : Path} : ∀ {es cs : FsEntries},
    lookupE es p = some (.dir cs) → ∀ r, r ≠ [] →
      lookupE es (p ++ r) = lookupE cs r := by
  induction p with
  | nil => intro es cs h r hr; simp [lookupE] at h
  | cons m p' ih =>
    intro es cs h r hr
    match hp' : p' with
    | [] =>
      have hfe : findEntry es m = some (.dir cs) := h
      rw [show ([m] ++ r) = m :: r from rfl]
      rw [lookupE_cons_ne_nil hr, hfe]
    | x :: r' =>
      rw [lookupE_cons_ne_nil (by simp)] at h
      rw [show ((m :: x :: r') ++ r) = m :: ((x :: r') ++ r) from rfl]
      rw [lookupE_cons_ne_nil (by simp)]
      cases hf : findEntry es m with
      | none => rw [hf] at h; all_goals simp at h
      | some w =>
        cases w with
        | dir cs₀ =>
          rw [hf] at h
          simp only at h
          simp only [hf]
          exact ih h r hr
        | file => rw [hf] at h; all_goals simp at h
        | symlink t => rw [hf] at h; all_goals simp at h

theorem findEntry_erase_ne : ∀ (es : FsEntries) {n m : String}, n ≠ m →
    findEntry (eraseEntry es n) m = findEntry es m
  | .nil, _, _, _ => rfl
  | .cons k v rest, n, m, h => by
    rw [show eraseEntry (.cons k v rest) n =
      (if k = n then rest else .cons k v (eraseEntry rest n)) from rfl]
    by_cases hkn : k = n
    · rw [if_pos hkn]
      rw [show findEntry (.cons k v rest) m =
        (if k = m then some v else findEntry rest m) from rfl]
      rw [if_neg (fun hkm => h (by rw [← hkn]; exact hkm))]
    · rw [if_neg hkn]
      rw [show findEntry (.cons k v (eraseEntry rest n)) m =
        (if k = m then some v else findEntry (eraseEntry rest n) m) from rfl]
      rw [show findEntry (.cons k v rest) m =
        (if k = m then some v else findEntry rest m) from rfl]
      by_cases hkm : k = m
      · rw [if_pos hkm, if_pos hkm]
      · rw [if_neg hkm, if_neg hkm]
        exact findEntry_erase_ne rest h

theorem findEntry_update_ne : ∀ (es : FsEntries) {n m : String} (v : FsNode), n ≠ m →
    findEntry (updateEntry es n v) m = findEntry es m
  | .nil, _, _, _, _ => rfl
  | .cons k w rest, n, m, v, h => by
    rw [show updateEntry (.cons k w rest) n v =
      (if k = n then .cons k v rest else .cons k w (updateEntry rest n v)) from rfl]
    by_cases hkn : k = n
    · rw [if_pos hkn]
      rw [show findEntry (.cons k v rest) m =
        (if k = m then some v else findEntry rest m) from rfl]
      rw [show findEntry (.cons k w rest) m =
        (if k = m then some w else findEntry rest m) from rfl]
      rw [if_neg (fun hkm => h (by rw [← hkn]; exact hkm)),
        if_neg (fun hkm => h (by rw [← hkn]; exact hkm))]
    · rw [if_neg hkn]
      rw [show findEntry (.cons k w (updateEntry rest n v)) m =
        (if k = m then some w else findEntry (updateEntry rest n v) m) from rfl]
      rw [show findEntry (.cons k w rest) m =
        (if k = m then some w else findEntry rest m) from rfl]
      by_cases hkm : k = m
      · rw [if_pos hkm, if_pos hkm]
      · rw [if_neg hkm, if_neg hkm]
        exact findEntry_update_ne rest v h

theorem lookup_removeE_outside {p : Path} : ∀ {es : FsEntries} {q : Path},
    ¬ (p <+: q) → (lookupE (removeE es p) q).isSome = (lookupE es q).isSome := by
  induction p with
  | nil => intro es q h; exact absurd (List.nil_prefix) h
  | cons m p' ih =>
    intro es q h
    match hp' : p' with
    | [] =>
      show (lookupE (eraseEntry es m) q).isSome = (lookupE es q).isSome
      match q with
      | [] => rfl
      | k :: q' =>
        have hmk : m ≠ k := fun he => h (by rw [he]; exact ⟨q', rfl⟩)
        match q' with
        | [] =>
          show (findEntry (eraseEntry es m) k).isSome = (findEntry es k).isSome
          rw [findEntry_erase_ne es hmk]
        | y :: q'' =>
          rw [lookupE_cons_ne_nil (by simp), lookupE_cons_ne_nil (by simp),
            findEntry_erase_ne es hmk]
    | x :: r =>
      rw [show removeE es (m :: x :: r) =
        (match findEntry es m with
         | some (.dir cs) => updateEntry es m (.dir (removeE cs (x :: r)))
         | _ => es) from rfl]
      cases hf : findEntry es m with
      | none => simp only [hf]
      | some w =>
        cases w with
        | dir cs₀ =>
          simp only [hf]
          match q with
          | [] => rfl
          | k :: q' =>
            by_cases hmk : m = k
            · subst hmk
              have h2 : ¬ ((x :: r) <+: q') :=
                fun hp2 => h (by rw [List.cons_prefix_cons]; exact ⟨rfl, hp2⟩)
              match q' with
              | [] =>
                show (findEntry (updateEntry es m (.dir (removeE cs₀ (x :: r)))) m).isSome
                  = (findEntry es m).isSome
                rw [findEntry_updateEntry es hf (.dir (removeE cs₀ (x :: r))), hf]
                rfl
              | y :: q'' =>
                rw [lookupE_cons_ne_nil (by simp), lookupE_cons_ne_nil (by simp),
                  findEntry_updateEntry es hf (.dir (removeE cs₀ (x :: r))), hf]
                show (lookupE (removeE cs₀ (x :: r)) (y :: q'')).isSome
                  = (lookupE cs₀ (y :: q'')).isSome
                exact ih h2
            · match q' with
              | [] =>
                show (findEntry (updateEntry es m (.dir (removeE cs₀ (x :: r)))) k).isSome
                  = (findEntry es k).isSome
                rw [findEntry_update_ne es _ hmk]
              | y :: q'' =>
                rw [lookupE_cons_ne_nil (by simp), lookupE_cons_ne_nil (by simp),
                  findEntry_update_ne es _ hmk]
        | file => simp only [hf]
        | symlink t => simp only [hf]

/-! Symlink safety: a symlink found inside the subtree is unlinked
directly (one `unlink` op at its path) and never recursed into (no op
strictly inside its path). -/

theorem symlink_entries : ∀ (cs : FsEntries) (p r : Path) (t : List String),
    entriesWf cs = true → lookupE cs r = some (.symlink t) →
    Op.unlink (p ++ r) ∈ rmrfEntries p cs ∧
    ∀ op ∈ rmrfEntries p cs, ¬ strictlyInside (p ++ r) (opPath op)
  | .nil, p, r, t, hwf, hl => by
    match r with
    | [] => exact absurd hl (by simp [lookupE])
    | [n] => exact absurd hl (by simp [lookupE, findEntry])
    | n :: x :: r' =>
      exact absurd hl (by rw [lookupE_cons_ne_nil (by simp)]; simp [findEntry])
  | .cons m c rest, p, r, t, hwf, hl => by
    obtain ⟨hm, hc, hrest⟩ := entriesWf_cons hwf
    have hrw : rmrfEntries p (.cons m c rest) =
      (if lstatIsDirectory c then rmrfNode (p ++ [m]) c
       else [Op.unlink (p ++ [m])]) ++ rmrfEntries p rest := rfl
    match r with
    | [] => exact absurd hl (by simp [lookupE])
    | [n] =>
      by_cases hmn : m = n
      · have hc' : c = .symlink t := by
          have h1 : findEntry (.cons m c rest) n = some (.symlink t) := hl
          rw [show findEntry (.cons m c rest) n =
            (if m = n then some c else findEntry rest n) from rfl, if_pos hmn] at h1
          injection h1
        subst hc'
        rw [← hmn]
        constructor
        · rw [hrw, if_neg (by simp [lstatIsDirectory])]
          exact List.mem_append_left _ (List.mem_cons_self _ _)
        · intro op hop
          rw [hrw, if_neg (by simp [lstatIsDirectory]), List.mem_append] at hop
          rcases hop with hop | hop
          · simp at hop
            rw [hop]
            rintro ⟨rr, hrr, heq⟩
            rw [show opPath (Op.unlink (p ++ [m])) = p ++ [m] from rfl] at heq
            have h2 : (p ++ [m]) ++ ([] : List String) = (p ++ [m]) ++ rr := by
              rw [List.append_nil]; exact heq
            exact hrr (List.append_cancel_left h2).symm
          · obtain ⟨m', s, hshape, hmem⟩ := rmrfEntries_shape rest p op hop
            have hne : m ≠ m' := fun he => contains_false_not_mem hm (he ▸ hmem)
            rw [hshape]
            exact not_inside_of_head_ne hne
      · have hfr : findEntry rest n = some (.symlink t) := by
          have h1 : findEntry (.cons m c rest) n = some (.symlink t) := hl
          rw [show findEntry (.cons m c rest) n =
            (if m = n then some c else findEntry rest n) from rfl, if_neg hmn] at h1
          exact h1
        obtain ⟨ih1, ih2⟩ := symlink_entries rest p [n] t hrest hfr
        constructor
        · rw [hrw]
          exact List.mem_append_right _ ih1
        · intro op hop
          rw [hrw, List.mem_append] at hop
          rcases hop with hop | hop
          · have hpre : (p ++ [m]) <+: opPath op := by
              by_cases hd : lstatIsDirectory c = true
              · rw [if_pos hd] at hop
                exact rmrfNode_prefix c (p ++ [m]) op hop
              · rw [if_neg hd] at hop
                simp at hop
                rw [hop]
                exact List.prefix_rfl
            obtain ⟨s₂, hs₂⟩ := hpre
            rw [← hs₂, List.append_assoc,
              show ([m] ++ s₂ : List String) = m :: s₂ from rfl]
            exact not_inside_of_head_ne (fun he => hmn he.symm)
          · exact ih2 op hop
    | n :: x :: r' =>
      have h0 : lookupE (.cons m c rest) (n :: x :: r') = some (.symlink t) := hl
      rw [lookupE_cons_ne_nil (by simp)] at h0
      cases hfm : findEntry (.cons m c rest) n with
      | none => rw [hfm] at h0; all_goals simp at h0
      | some w =>
        cases w with
        | dir ccs =>
          rw [hfm] at h0
          simp only at h0
          by_cases hmn : m = n
          · have hc' : c = .dir ccs := by
              have h1 : findEntry (.cons m c rest) n = some (.dir ccs) := hfm
              rw [show findEntry (.cons m c rest) n =
                (if m = n then some c else findEntry rest n) from rfl,
                if_pos hmn] at h1
              injection h1
            subst hc'
            rw [← hmn]
            obtain ⟨ih1, ih2⟩ := symlink_entries ccs (p ++ [m]) (x :: r') t
              (show entriesWf ccs = true from hc) h0
            have hrw2 : rmrfNode (p ++ [m]) (.dir ccs) =
              rmrfEntries (p ++ [m]) ccs ++ [Op.rmdir (p ++ [m])] := rfl
            have hpath : (p ++ (m :: x :: r') : List String)
                = (p ++ [m]) ++ (x :: r') := by
              rw [List.append_assoc]
              rfl
            constructor
            · rw [hrw, if_pos (show lstatIsDirectory (.dir ccs) = true from rfl)]
              refine List.mem_append_left _ ?_
              rw [hrw2]
              refine List.mem_append_left _ ?_
              rw [hpath]
              exact ih1
            · intro op hop
              rw [hrw, if_pos (show lstatIsDirectory (.dir ccs) = true from rfl),
                List.mem_append] at hop
              rcases hop with hop | hop
              · rw [hrw2, List.mem_append] at hop
                rcases hop with hop | hop
                · rw [hpath]
                  exact ih2 op hop
                · simp at hop
                  rw [hop]
                  refine not_inside_short ?_
                  rw [show opPath (Op.rmdir (p ++ [m])) = p ++ [m] from rfl]
                  simp only [List.length_append, List.length_cons, List.length_nil]
                  omega
              · obtain ⟨m', s, hshape, hmem⟩ := rmrfEntries_shape rest p op hop
                have hne : m ≠ m' := fun he => contains_false_not_mem hm (he ▸ hmem)
                rw [hshape]
                exact not_inside_of_head_ne hne
          · have hfr : findEntry rest n = some (.dir ccs) := by
              have h1 : findEntry (.cons m c rest) n = some (.dir ccs) := hfm
              rw [show findEntry (.cons m c rest) n =
                (if m = n then some c else findEntry rest n) from rfl,
                if_neg hmn] at h1
              exact h1
            have hlr : lookupE rest (n :: x :: r') = some (.symlink t) := by
              rw [lookupE_cons_ne_nil (by simp)]
              simp only [hfr]
              exact h0
            obtain ⟨ih1, ih2⟩ := symlink_entries rest p (n :: x :: r') t hrest hlr
            constructor
            · rw [hrw]
              exact List.mem_append_right _ ih1
            · intro op hop
              rw [hrw, List.mem_append] at hop
              rcases hop with hop | hop
              · have hpre : (p ++ [m]) <+: opPath op := by
                  by_cases hd : lstatIsDirectory c = true
                  · rw [if_pos hd] at hop
                    exact rmrfNode_prefix c (p ++ [m]) op hop
                  · rw [if_neg hd] at hop
                    simp at hop
                    rw [hop]
                    exact List.prefix_rfl
                obtain ⟨s₂, hs₂⟩ := hpre
                rw [← hs₂, List.append_assoc,
                  show ([m] ++ s₂ : List String) = m :: s₂ from rfl]
                exact not_inside_of_head_ne (fun he => hmn he.symm)
              · exact ih2 op hop
        | file => rw [hfm] at h0; all_goals simp at h0
        | symlink t2 => rw [hfm] at h0; all_goals simp at h0
termination_by cs => sizeOf cs

/-- A small well-formed tree used as the concrete destroy scenario:
`proj/` holds a file, a symlink to an outside directory, and a
subdirectory with one file; `other.txt` lives beside `proj/`. -/
def exampleChildren : FsEntries :=
  .cons "README.md" .file
    (.cons "link" (.symlink ["etc", "passwd"])
      (.cons "sub" (.dir (.cons "deep.txt" .file .nil)) .nil))

def exampleFs : FsEntries :=
  .cons "proj" (.dir exampleChildren) (.cons "other.txt" .file .nil)

/-- C4: destroying an existing directory reports `removed`; afterwards the
directory and every former descendant are absent (every path at or below
it looks up to `none`); and the op trace is bottom-up: once a directory's
`rmdir` is emitted, no later op touches a path strictly inside it. -/
theorem C4_destroy (es : FsEntries) (p : Path) (cs : FsEntries)
    (hwf : entriesWf es = true) (h : lookupE es p = some (.dir cs)) :
    (destroyFs es p).2.2 = DestroyResult.removed ∧
    (∀ q, p <+: q → lookupE (destroyFs es p).1 q = none) ∧
    bottomUp (destroyFs es p).2.1 := by
  have hd : destroyFs es p =
      ((rmrfNode p (.dir cs)).foldl applyOp es, rmrfNode p (.dir cs), .removed) := by
    rw [show destroyFs es p =
      (match lookupE es p with
       | none => (es, [], .notFound)
       | some (.dir cs) =>
         ((rmrfNode p (.dir cs)).foldl applyOp es, rmrfNode p (.dir cs), .removed)
       | some _ => (es, [], .error)) from rfl]
    simp only [h]
  rw [hd]
  refine ⟨rfl, ?_, ?_⟩
  · intro q hq
    obtain ⟨r, hr⟩ := hq
    show lookupE ((rmrfNode p (.dir cs)).foldl applyOp es) q = none
    rw [foldl_rmrfNode cs h, ← hr]
    have hpne : p ≠ [] := by
      intro he
      rw [he] at h
      simp [lookupE] at h
    exact lookup_none_extend p hpne (lookup_removeE_self hwf) r
  · exact bottomUp_rmrfNode (.dir cs) (lookup_wf hwf h) p

/-- Closed instance of C4 on the example tree. -/
theorem C4_destroy_witness :
    (entriesWf exampleFs = true ∧
     lookupE exampleFs ["proj"] = some (.dir exampleChildren)) ∧
    ((destroyFs exampleFs ["proj"]).2.2 = DestroyResult.removed ∧
     (∀ q, ["proj"] <+: q → lookupE (destroyFs exampleFs ["proj"]).1 q = none) ∧
     bottomUp (destroyFs exampleFs ["proj"]).2.1) :=
  ⟨⟨by decide, by decide⟩,
   C4_destroy exampleFs ["proj"] exampleChildren (by decide) (by decide)⟩

/-- C5: destroying an absent path leaves the tree unchanged, performs no
filesystem ops, and reports `notFound` rather than an error; and after
destroying an existing directory, a second destroy of the same path finds
nothing and leaves the (already pruned) tree unchanged. -/
theorem C5_destroy_absent (es : FsEntries) (p : Path) :
    (lookupE es p = none → destroyFs es p = (es, [], DestroyResult.notFound)) ∧
    (∀ cs, entriesWf es = true → lookupE es p = some (.dir cs) →
      destroyFs (destroyFs es p).1 p
        = ((destroyFs es p).1, [], DestroyResult.notFound)) := by
  constructor
  · intro h
    rw [show destroyFs es p =
      (match lookupE es p with
       | none => (es, [], .notFound)
       | some (.dir cs) =>
         ((rmrfNode p (.dir cs)).foldl applyOp es, rmrfNode p (.dir cs), .removed)
       | some _ => (es, [], .error)) from rfl]
    simp only [h]
  · intro cs hwf h
    have h1 : (destroyFs es p).1 = removeE es p := by
      rw [show destroyFs es p =
        (match lookupE es p with
         | none => (es, [], .notFound)
         | some (.dir cs) =>
           ((rmrfNode p (.dir cs)).foldl applyOp es, rmrfNode p (.dir cs), .removed)
         | some _ => (es, [], .error)) from rfl]
      simp only [h]
      exact foldl_rmrfNode cs h
    rw [h1]
    have h2 : lookupE (removeE es p) p = none := lookup_removeE_self hwf
    rw [show destroyFs (removeE es p) p =
      (match lookupE (removeE es p) p with
       | none => (removeE es p, [], .notFound)
       | some (.dir cs) =>
         ((rmrfNode p (.dir cs)).foldl applyOp (removeE es p),
           rmrfNode p (.dir cs), .removed)
       | some _ => (removeE es p, [], .error)) from rfl]
    simp only [h2]

/-- Closed instance of C5: a never-existing path, and destroy-then-destroy
on the example tree. -/
theorem C5_destroy_absent_witness :
    destroyFs exampleFs ["ghost"] = (exampleFs, [], DestroyResult.notFound) ∧
    destroyFs (destroyFs exampleFs ["proj"]).1 ["proj"]
      = ((destroyFs exampleFs ["proj"]).1, [], DestroyResult.notFound) :=
  ⟨(C5_destroy_absent exampleFs ["ghost"]).1 (by decide),
   (C5_destroy_absent exampleFs ["proj"]).2 exampleChildren (by decide) (by decide)⟩

/-- C10: destroy decides directory-ness with `lstat`, under which a
symlink is never a directory; hence a symlink inside the destroyed tree is
unlinked directly, no op of the trace touches a path strictly inside the
symlink (it is never recursed into), and existence of every path outside
the destroyed directory — in particular anything only reachable through
the link's target — is unchanged. -/
theorem C10_symlink_safety (es : FsEntries) (p q : Path) (cs : FsEntries)
    (t : List String)
    (hwf : entriesWf es = true)
    (hdir : lookupE es p = some (.dir cs))
    (hq : lookupE es q = some (.symlink t))
    (hpq : p <+: q) :
    lstatIsDirectory (.symlink t) = false ∧
    Op.unlink q ∈ (destroyFs es p).2.1 ∧
    (∀ op ∈ (destroyFs es p).2.1, ¬ strictlyInside q (opPath op)) ∧
    (∀ w, ¬ (p <+: w) →
      (lookupE (destroyFs es p).1 w).isSome = (lookupE es w).isSome) := by
  have hd : destroyFs es p =
      ((rmrfNode p (.dir cs)).foldl applyOp es, rmrfNode p (.dir cs), .removed) := by
    rw [show destroyFs es p =
      (match lookupE es p with
       | none => (es, [], .notFound)
       | some (.dir cs) =>
         ((rmrfNode p (.dir cs)).foldl applyOp es, rmrfNode p (.dir cs), .removed)
       | some _ => (es, [], .error)) from rfl]
    simp only [hdir]
  obtain ⟨r, hr⟩ := hpq
  have hrne : r ≠ [] := by
    intro he
    rw [he, List.append_nil] at hr
    rw [← hr, hdir] at hq
    exact FsNode.noConfusion (Option.some.inj hq)
  have hlcs : lookupE cs r = some (.symlink t) := by
    rw [← lookup_append hdir r hrne, hr]
    exact hq
  have hwfcs : entriesWf cs = true :=
    show entriesWf cs = true from lookup_wf hwf hdir
  obtain ⟨hm, havoid⟩ := symlink_entries cs p r t hwfcs hlcs
  rw [hd]
  refine ⟨rfl, ?_, ?_, ?_⟩
  · show Op.unlink q ∈ rmrfNode p (.dir cs)
    rw [show rmrfNode p (.dir cs) = rmrfEntries p cs ++ [Op.rmdir p] from rfl]
    refine List.mem_append_left _ ?_
    rw [← hr]
    exact hm
  · intro op hop
    have hop' : op ∈ rmrfEntries p cs ++ [Op.rmdir p] := hop
    rw [List.mem_append] at hop'
    rcases hop' with hop' | hop'
    · rw [← hr]
      exact havoid op hop'
    · simp at hop'
      rw [hop']
      refine not_inside_short ?_
      rw [show opPath (Op.rmdir p) = p from rfl, ← hr, List.length_append]
      cases r with
      | nil => exact absurd rfl hrne
      | cons a r' => simp only [List.length_cons]; omega
  · intro w hw
    show (lookupE ((rmrfNode p (.dir cs)).foldl applyOp es) w).isSome
        = (lookupE es w).isSome
    rw [foldl_rmrfNode cs hdir]
    exact lookup_removeE_outside hw

/-- Closed instance of C10: destroying `proj/`, which holds a symlink to
an outside directory. -/
theorem C10_symlink_safety_witness :
    (entriesWf exampleFs = true ∧
     lookupE exampleFs ["proj"] = some (.dir exampleChildren) ∧
     lookupE exampleFs ["proj", "link"] = some (.symlink ["etc", "passwd"]) ∧
     (["proj"] : Path) <+: ["proj", "link"]) ∧
    (lstatIsDirectory (.symlink ["etc", "passwd"]) = false ∧
     Op.unlink ["proj", "link"] ∈ (destroyFs exampleFs ["proj"]).2.1 ∧
     (∀ op ∈ (destroyFs exampleFs ["proj"]).2.1,
        ¬ strictlyInside ["proj", "link"] (opPath op)) ∧
     (∀ w, ¬ ((["proj"] : Path) <+: w) →
        (lookupE (destroyFs exampleFs ["proj"]).1 w).isSome
          = (lookupE exampleFs w).isSome)) :=
  ⟨⟨by decide, by decide, by decide, ⟨["link"], rfl⟩⟩,
   C10_symlink_safety exampleFs ["proj"] ["proj", "link"] exampleChildren
     ["etc", "passwd"] (by decide) (by decide) (by decide) ⟨["link"], rfl⟩⟩

/-- Counterexample to C1 as stated: with the project name itself a known
placeholder token (`\x7b\x7bname\x7d\x7d`), the generated `README.md`
carries a residual known-variable token — the name is spliced into
templates verbatim, never interpolated. -/
theorem C1_counterexample :
    ∃ c, ((createScaffold (Fs.mk [] []) ["app"] "\x7b\x7bname\x7d\x7d").1).lookupFile
        (["app"] ++ relSegs "README.md") = some c ∧
      hasResidualKnownPh c = true := by
  have hscaf : createScaffold (Fs.mk [] []) ["app"] "\x7b\x7bname\x7d\x7d"
      = ((script "\x7b\x7bname\x7d\x7d").foldl (applyAct ["app"])
          ((Fs.mk [] []).mkdirRec ["app"]), none) := by
    unfold createScaffold
    rw [show (Fs.mk [] []).existsPath ["app"] = false from by decide]
    simp only [Bool.false_eq_true, if_false]
  refine ⟨content_README_md_v2 "\x7b\x7bname\x7d\x7d", ?_, ?_⟩
  · rw [hscaf]
    rw [lookupFile_foldActs]
    rfl
  · decide

/-- Closed instance of C1 (amended) on a fresh target with a clean name. -/
theorem C1_tree_materialized_witness :
    ((Fs.mk [] []).existsPath ["app"] = false ∧
     hasResidualKnownPh "onboardkit" = false) ∧
    ((createScaffold (Fs.mk [] []) ["app"] "onboardkit").2 = none ∧
     ∀ e ∈ treeEntries "onboardkit", ∃ c,
       ((createScaffold (Fs.mk [] []) ["app"] "onboardkit").1).lookupFile
           (["app"] ++ relSegs e.1) = some c ∧
       hasResidualKnownPh c = false) :=
  ⟨⟨by decide, by decide⟩,
   C1_tree_materialized (Fs.mk [] []) ["app"] "onboardkit" (by decide) (by decide)⟩
